import Mathlib

/-!
Verification of the 152compiler repository (a Python-like to MIPS32 compiler
written in Go) against its natural-language specification.

The Go sources are shallowly embedded: each Go function becomes a Lean
function over an explicit state record.  Go byte strings are modelled as
`List Char` (the inputs under the source contract are ASCII, one byte per
char); Go `int` fields that can interact with negative values are `Int`,
indices are `Nat`; a Go function that can `panic` returns an `Option`;
a Go function returning `error` returns an `Except String`.
-/

set_option maxRecDepth 10000

/-! ## Package `token`

The file `token.go` is absent from the sources; only its tests and its
callers are available.  The definitions in this section are therefore
modelled from the spec and from `token_test.go` / `parser_test.go`:
`TokenType` is a string type, the operator/delimiter token types print as
their own symbol (the parser tests expect the messages
"Unexpected token * (*)" and "Unexpected token ) ())"), and `LookupIdent`
maps exactly the keywords def/return/if/else/while/print to keyword token
types and everything else to `IDENT` (asserted verbatim by
`TestLookupIdent`).
-/

namespace token

/-- Modelled from the spec: `TokenType` is a string type (token.go is
missing from the sources). -/
abbrev TokenType := String

def ILLEGAL : TokenType := "ILLEGAL"
def EOF : TokenType := "EOF"
def IDENT : TokenType := "IDENT"
def INT : TokenType := "INT"
def STRING : TokenType := "STRING"
def ASSIGN : TokenType := "="
def PLUS : TokenType := "+"
def ASTERISK : TokenType := "*"
def LT : TokenType := "<"
def GT : TokenType := ">"
def LPAREN : TokenType := "("
def RPAREN : TokenType := ")"
def COLON : TokenType := ":"
def COMMA : TokenType := ","
def NEWLINE : TokenType := "NEWLINE"
def INDENT : TokenType := "INDENT"
def DEDENT : TokenType := "DEDENT"
def DEF : TokenType := "DEF"
def RETURN : TokenType := "RETURN"
def IF : TokenType := "IF"
def ELSE : TokenType := "ELSE"
def WHILE : TokenType := "WHILE"
def PRINT : TokenType := "PRINT"

/-- A lexical token: kind, literal text and 1-based source position.
Mirrors `token.Token` as used by `lexer.go` and `parser.go`. -/
structure Token where
  ttype : TokenType
  literal : String
  line : Int
  column : Int
deriving Repr, DecidableEq

/-- Modelled from the spec: keyword recognition by exact match against the
identifier text (behaviour pinned down verbatim by `TestLookupIdent`). -/
def LookupIdent (s : String) : TokenType :=
  if s = "def" then DEF
  else if s = "return" then RETURN
  else if s = "if" then IF
  else if s = "else" then ELSE
  else if s = "while" then WHILE
  else if s = "print" then PRINT
  else IDENT

end token

/-! ## Package `lexer` (from `src/packages/lexer/lexer.go`)

The Go lexer caches the current byte in `l.ch` and keeps
`l.readPosition = l.position + 1` at all times (both are only written by
`readChar`), so the embedding keeps a single index `pos` and derives the
current character: `ch = input[pos]`, or the zero byte when `pos` is past
the end.  The zero byte plays the role of Go's `l.ch == 0` end marker.
-/

namespace lexer

open token

/-- Lexer state, mirroring the `Lexer` struct of `lexer.go` field by field
(minus the cached `ch`/`readPosition`, which are derived from `pos`). -/
structure Lexer where
  input : List Char
  pos : Nat
  line : Int
  column : Int
  indentStack : List Int
  currentIndent : Int  -- declared in the Go struct, never written or read
  startOfLine : Bool
  expectIndent : Bool
  lineLength : Int
deriving Repr

/-- The current character under examination (`l.ch` in Go): the byte at
`position`, or 0 past the end of input. -/
def Lexer.ch (l : Lexer) : Char := l.input.getD l.pos '\x00'

/-- Advances the cursor by one byte and applies the column / start-of-line
bookkeeping of `readChar` to the newly loaded character. -/
def readChar (l : Lexer) : Lexer :=
  if l.input.getD (l.pos + 1) '\x00' = '\n' then
    { l with pos := l.pos + 1, column := 0, startOfLine := true }
  else
    { l with pos := l.pos + 1, column := l.column + 1,
             lineLength := if !l.startOfLine then l.lineLength + 1 else l.lineLength }

/-- The constructor `New`: initial state followed by the one `readChar`
call `New` performs (which loads `input[0]` without moving `position`,
then applies the column bookkeeping to it). -/
def lexerNew (input : List Char) : Lexer :=
  let base : Lexer :=
    { input := input, pos := 0, line := 1, column := 0, indentStack := [0],
      currentIndent := 0, startOfLine := true, expectIndent := false, lineLength := 0 }
  if input.getD 0 '\x00' = '\n' then
    { base with column := 0, startOfLine := true }
  else
    { base with column := 1 }

theorem ch_ne_nul_lt {l : Lexer} (h : l.ch ≠ '\x00') : l.pos < l.input.length := by
  by_contra hge
  have hnone : l.input[l.pos]? = none := List.getElem?_eq_none (Nat.le_of_not_lt hge)
  exact h (by simp [Lexer.ch, List.getD, hnone])

theorem readChar_pos (l : Lexer) : (readChar l).pos = l.pos + 1 := by
  unfold readChar; split <;> rfl

theorem readChar_input (l : Lexer) : (readChar l).input = l.input := by
  unfold readChar; split <;> rfl

/-- The tab-counting loop at the start of `NextToken`'s start-of-line
block: `for l.ch == '\t' { indentLevel++; l.readChar() }`.  Each loop of
the lexer is expressed with an explicit step bound so that it reduces in
the kernel; the wrapper always supplies a sufficient bound: each iteration
moves the cursor one byte forward, every loop guard fails on the zero
byte, and the cursor never runs more than one byte past the end of the
input, so a bound of `input.length + 1 - pos` steps never cuts a loop
short. -/
def countTabsAux : Nat → Lexer → Int → Int × Lexer
  | 0, l, acc => (acc, l)
  | n + 1, l, acc =>
    if l.ch = '\t' then
      countTabsAux n (readChar l) (acc + 1)
    else
      (acc, l)

def countTabs (l : Lexer) (acc : Int) : Int × Lexer :=
  countTabsAux (l.input.length + 1 - l.pos) l acc

/-- The whitespace loop of `skipWhitespace` (only runs when not at start
of line). -/
def skipWsLoopAux : Nat → Lexer → Lexer
  | 0, l => l
  | n + 1, l =>
    if l.ch = ' ' ∨ l.ch = '\t' then
      skipWsLoopAux n (readChar l)
    else
      l

def skipWsLoop (l : Lexer) : Lexer :=
  skipWsLoopAux (l.input.length + 1 - l.pos) l

/-- Mirrors `skipWhitespace`. -/
def skipWhitespace (l : Lexer) : Lexer :=
  if !l.startOfLine then skipWsLoop l else l

/-- The scan loop of `readString`: advance, stop on a closing quote or on
the zero byte. -/
def readStringLoopAux : Nat → Lexer → Lexer
  | 0, l => readChar l
  | n + 1, l =>
    if (readChar l).ch = '"' ∨ (readChar l).ch = '\x00' then readChar l
    else readStringLoopAux n (readChar l)

def readStringLoop (l : Lexer) : Lexer :=
  readStringLoopAux (l.input.length + 1 - l.pos) l

/-- Mirrors `readString`: records the column of the opening quote, scans to
the closing quote (or end of input), slices the literal out of the input,
and consumes the closing quote. -/
def readString (l : Lexer) : Token × Lexer :=
  let startCol := l.column
  let position := l.pos + 1
  let l' := readStringLoop l
  let str : String := String.mk ((l'.input.drop position).take (l'.pos - position))
  let tok : Token := { ttype := STRING, literal := str, line := l'.line, column := startCol }
  (tok, readChar l')

def isLetter (c : Char) : Bool :=
  ('a' ≤ c ∧ c ≤ 'z') ∨ ('A' ≤ c ∧ c ≤ 'Z') ∨ c = '_'

def isDigit (c : Char) : Bool :=
  '0' ≤ c ∧ c ≤ '9'

/-- The identifier scan loop of `processToken`:
`for isLetter(l.ch) || isDigit(l.ch) { l.readChar() }`. -/
def identLoopAux : Nat → Lexer → Lexer
  | 0, l => l
  | n + 1, l =>
    if isLetter l.ch ∨ isDigit l.ch then
      identLoopAux n (readChar l)
    else
      l

def identLoop (l : Lexer) : Lexer :=
  identLoopAux (l.input.length + 1 - l.pos) l

/-- The digit scan loop of `readNumber`. -/
def digitLoopAux : Nat → Lexer → Lexer
  | 0, l => l
  | n + 1, l =>
    if isDigit l.ch then
      digitLoopAux n (readChar l)
    else
      l

def digitLoop (l : Lexer) : Lexer :=
  digitLoopAux (l.input.length + 1 - l.pos) l

/-- Mirrors `newToken`. -/
def newTokenOf (t : TokenType) (c : Char) (line column : Int) : Token :=
  { ttype := t, literal := String.mk [c], line := line, column := column }

/-- Mirrors `processToken`: identifiers/keywords, numbers, the
single-character operators and delimiters, strings, and ILLEGAL for
everything else. -/
def processToken (l : Lexer) : Token × Lexer :=
  let startColumn := l.column
  if isLetter l.ch then
    let startPos := l.pos
    let l' := identLoop (readChar l)
    let literal := String.mk ((l'.input.drop startPos).take (l'.pos - startPos))
    ({ ttype := LookupIdent literal, literal := literal, line := l'.line, column := startColumn }, l')
  else if isDigit l.ch then
    let startPos := l.pos
    let l' := digitLoop l
    let literal := String.mk ((l'.input.drop startPos).take (l'.pos - startPos))
    ({ ttype := INT, literal := literal, line := l'.line, column := startColumn }, l')
  else if l.ch = '=' then (newTokenOf ASSIGN l.ch l.line startColumn, readChar l)
  else if l.ch = '+' then (newTokenOf PLUS l.ch l.line startColumn, readChar l)
  else if l.ch = '*' then (newTokenOf ASTERISK l.ch l.line startColumn, readChar l)
  else if l.ch = '<' then (newTokenOf LT l.ch l.line startColumn, readChar l)
  else if l.ch = '>' then (newTokenOf GT l.ch l.line startColumn, readChar l)
  else if l.ch = '(' then (newTokenOf LPAREN l.ch l.line startColumn, readChar l)
  else if l.ch = ')' then (newTokenOf RPAREN l.ch l.line startColumn, readChar l)
  else if l.ch = ':' then (newTokenOf COLON l.ch l.line startColumn, readChar l)
  else if l.ch = ',' then (newTokenOf COMMA l.ch l.line startColumn, readChar l)
  else if l.ch = '"' then readString l
  else (newTokenOf ILLEGAL l.ch l.line startColumn, readChar l)

/-- The DEDENT/INDENT checks at the end of `NextToken`'s start-of-line
block (lexer.go lines 155-175): pop one level and emit DEDENT, push one
level and emit INDENT, or fall through. -/
def indentDecision (indentLevel : Int) (l3 : Lexer) : Option Token × Lexer :=
  if indentLevel < (l3.indentStack.length : Int) - 1 ∧ l3.ch ≠ '\n' then
    (some { ttype := DEDENT, literal := "", line := l3.line, column := 1 },
     { l3 with indentStack := l3.indentStack.dropLast })
  else if indentLevel > (l3.indentStack.length : Int) - 1 then
    (some { ttype := INDENT, literal := "\t", line := l3.line, column := 1 },
     { l3 with indentStack := l3.indentStack ++ [indentLevel] })
  else
    (none, l3)

/-- The start-of-line block of `NextToken` (lines 126-176 of `lexer.go`):
sets column to 1, rejects leading spaces, counts leading tabs, updates the
start-of-line flag, and emits at most one DEDENT or INDENT against the
indentation stack.  Returns `some` token when the block returns early. -/
def startOfLineStep (l : Lexer) : Option Token × Lexer :=
  if l.startOfLine then
    let l1 := { l with column := 1 }
    if l1.ch = ' ' then
      (some { ttype := ILLEGAL, literal := "spaces for indentation not allowed, use tabs",
              line := l1.line, column := l1.column }, l1)
    else
      let (indentLevel, l2) := countTabs l1 0
      let l3 :=
        if l2.ch = '\n' ∨ l2.ch = '\x00' then
          { l2 with startOfLine := true }
        else
          { l2 with startOfLine := false, column := indentLevel + 1,
                    lineLength := indentLevel + 1 }
      indentDecision indentLevel l3
  else
    (none, l)

/-- Mirrors `NextToken`: the start-of-line block, the carriage-return
rejection, whitespace skipping, then EOF / NEWLINE / `processToken`. -/
def nextToken (l : Lexer) : Token × Lexer :=
  match startOfLineStep l with
  | (some t, l') => (t, l')
  | (none, l1) =>
    if l1.ch = '\r' then
      ({ ttype := ILLEGAL,
         literal := "Windows line endings (\\r\\n) not allowed, use Unix style (\\n)",
         line := l1.line, column := l1.column }, l1)
    else
      let l2 := skipWhitespace l1
      if l2.ch = '\x00' then
        ({ ttype := EOF, literal := "", line := l2.line, column := l2.column }, l2)
      else if l2.ch = '\n' then
        let tok : Token := { ttype := NEWLINE, literal := "\n",
                             line := l2.line, column := l2.lineLength + 1 }
        let l3 := readChar l2
        (tok, { l3 with line := l3.line + 1, startOfLine := true, lineLength := 0 })
      else
        let (tok, l3) := processToken l2
        (tok, if tok.ttype = COLON then { l3 with expectIndent := true } else l3)

/-- The token stream obtained by calling `NextToken` repeatedly until EOF
is returned (cut off by fuel; the EOF token itself is kept when reached). -/
def tokenStream (fuel : Nat) (l : Lexer) : List Token :=
  match fuel with
  | 0 => []
  | fuel + 1 =>
    let (t, l') := nextToken l
    if t.ttype = EOF then [t] else t :: tokenStream fuel l'

/-- Number of tokens of a given type in a stream. -/
def countType (ts : List Token) (ty : TokenType) : Nat :=
  (ts.filter (fun t => t.ttype = ty)).length

/-- The full token stream of a source text, from a fresh lexer. -/
def lexAll (fuel : Nat) (input : List Char) : List Token :=
  tokenStream fuel (lexerNew input)

/-! ### Invariants of the lexer used for the INDENT/DEDENT balance claim -/

/-- State invariant of the lexer, relative to the fixed source text
`input`: the indentation stack is never empty; whenever the current
character is a newline, or the cursor is past the end of the input, the
start-of-line flag is set. -/
def LexInv (input : List Char) (l : Lexer) : Prop :=
  l.input = input ∧
  1 ≤ l.indentStack.length ∧
  (l.ch = '\n' → l.startOfLine = true) ∧
  (l.input.length ≤ l.pos → l.startOfLine = true)

theorem readChar_indentStack (l : Lexer) : (readChar l).indentStack = l.indentStack := by
  unfold readChar; split <;> rfl

theorem readChar_startOfLine_mono (l : Lexer) (h : l.startOfLine = true) :
    (readChar l).startOfLine = true := by
  unfold readChar; split <;> simp [h]

theorem getLast_getD {input : List Char} (h : input ≠ [])
    (hNL : input.getLast? = some '\n') :
    input.getD (input.length - 1) '\x00' = '\n' := by
  rw [List.getLast?_eq_getElem?] at hNL
  simp [List.getD, hNL]

theorem readChar_inv {input : List Char}
    (hNL : input.getLast? = some '\n' ∨ input = []) {l : Lexer}
    (hInv : LexInv input l) : LexInv input (readChar l) := by
  obtain ⟨hin, hst, hch, hpos⟩ := hInv
  unfold readChar
  split
  · exact ⟨hin, hst, fun _ => rfl, fun _ => rfl⟩
  · rename_i hne
    refine ⟨hin, hst, ?_, ?_⟩
    · intro hch'
      exact absurd hch' hne
    · intro hle
      simp only at hle
      rcases Nat.lt_or_ge l.pos l.input.length with hlt | hge
      · -- the cursor was on the last character, which is a newline
        have hlen : l.input.length = l.pos + 1 := by omega
        have hne' : input ≠ [] := by
          intro h0
          rw [hin] at hlen
          simp [h0] at hlen
        have hNL' : input.getLast? = some '\n' := hNL.resolve_right hne'
        have : l.ch = '\n' := by
          have := getLast_getD hne' hNL'
          unfold Lexer.ch
          rw [hin]
          rw [hin] at hlen
          rw [hlen] at this
          simpa using this
        exact hch this
      · exact hpos hge

theorem countTabsAux_indentStack (n : Nat) :
    ∀ (l : Lexer) (acc : Int), (countTabsAux n l acc).2.indentStack = l.indentStack := by
  induction n with
  | zero => intro l acc; rfl
  | succ n ih =>
    intro l acc
    unfold countTabsAux
    split
    · rw [ih, readChar_indentStack]
    · rfl

theorem countTabs_indentStack (l : Lexer) (acc : Int) :
    (countTabs l acc).2.indentStack = l.indentStack :=
  countTabsAux_indentStack _ l acc

theorem countTabsAux_input (n : Nat) :
    ∀ (l : Lexer) (acc : Int), (countTabsAux n l acc).2.input = l.input := by
  induction n with
  | zero => intro l acc; rfl
  | succ n ih =>
    intro l acc
    unfold countTabsAux
    split
    · rw [ih, readChar_input]
    · rfl

theorem countTabs_input (l : Lexer) (acc : Int) :
    (countTabs l acc).2.input = l.input :=
  countTabsAux_input _ l acc

theorem countTabsAux_inv {input : List Char}
    (hNL : input.getLast? = some '\n' ∨ input = []) (n : Nat) :
    ∀ (l : Lexer) (acc : Int),
      LexInv input l → LexInv input (countTabsAux n l acc).2 := by
  induction n with
  | zero => intro l acc hInv; exact hInv
  | succ n ih =>
    intro l acc hInv
    unfold countTabsAux
    split
    · exact ih (readChar l) (acc + 1) (readChar_inv hNL hInv)
    · exact hInv

theorem countTabs_inv {input : List Char}
    (hNL : input.getLast? = some '\n' ∨ input = []) (l : Lexer) (acc : Int)
    (hInv : LexInv input l) : LexInv input (countTabs l acc).2 :=
  countTabsAux_inv hNL _ l acc hInv

theorem countTabsAux_ge (n : Nat) :
    ∀ (l : Lexer) (acc : Int), acc ≤ (countTabsAux n l acc).1 := by
  induction n with
  | zero => intro l acc; exact le_refl acc
  | succ n ih =>
    intro l acc
    unfold countTabsAux
    split
    · have := ih (readChar l) (acc + 1)
      omega
    · exact le_refl acc

theorem countTabs_ge (l : Lexer) (acc : Int) : acc ≤ (countTabs l acc).1 :=
  countTabsAux_ge _ l acc

/-- When the tab-counting loop consumed at least one character, the last
consumed character (the one just before the final cursor) is a tab, and
the cursor did not move past the end of the input. -/
theorem countTabsAux_last (n : Nat) :
    ∀ (l : Lexer) (acc : Int), acc < (countTabsAux n l acc).1 →
      (countTabsAux n l acc).2.pos ≤ l.input.length ∧
      1 ≤ (countTabsAux n l acc).2.pos ∧
      l.input.getD ((countTabsAux n l acc).2.pos - 1) '\x00' = '\t' := by
  induction n with
  | zero =>
    intro l acc hcons
    exact absurd hcons (by simp [countTabsAux])
  | succ n ih =>
    intro l acc hcons
    unfold countTabsAux at hcons ⊢
    by_cases htab : l.ch = '\t'
    · rw [if_pos htab] at hcons ⊢
      have hlt : l.pos < l.input.length := ch_ne_nul_lt (by simp [htab])
      by_cases hrec : acc + 1 < (countTabsAux n (readChar l) (acc + 1)).1
      · have := ih (readChar l) (acc + 1) hrec
        rwa [readChar_input] at this
      · -- the recursive loop consumed nothing, so the result state is the
        -- state right after the single consumed tab
        have hge := countTabsAux_ge n (readChar l) (acc + 1)
        have heq : (countTabsAux n (readChar l) (acc + 1)).1 = acc + 1 := by omega
        have hstate : (countTabsAux n (readChar l) (acc + 1)).2 = readChar l := by
          cases n with
          | zero => rfl
          | succ n =>
            unfold countTabsAux
            split
            · rename_i htab2
              exfalso
              unfold countTabsAux at heq
              rw [if_pos htab2] at heq
              have := countTabsAux_ge n (readChar (readChar l)) (acc + 1 + 1)
              omega
            · rfl
        rw [hstate, readChar_pos]
        refine ⟨by omega, by omega, ?_⟩
        simpa [Lexer.ch] using htab
    · rw [if_neg htab] at hcons
      exact absurd hcons (by simp)

theorem countTabs_last (l : Lexer) (acc : Int) :
    acc < (countTabs l acc).1 →
    (countTabs l acc).2.pos ≤ l.input.length ∧
    1 ≤ (countTabs l acc).2.pos ∧
    l.input.getD ((countTabs l acc).2.pos - 1) '\x00' = '\t' :=
  countTabsAux_last _ l acc

theorem skipWsLoopAux_indentStack (n : Nat) :
    ∀ l : Lexer, (skipWsLoopAux n l).indentStack = l.indentStack := by
  induction n with
  | zero => intro l; rfl
  | succ n ih =>
    intro l
    unfold skipWsLoopAux
    split
    · rw [ih, readChar_indentStack]
    · rfl

theorem skipWsLoop_indentStack (l : Lexer) : (skipWsLoop l).indentStack = l.indentStack :=
  skipWsLoopAux_indentStack _ l

theorem readChar_ch (l : Lexer) : (readChar l).ch = l.input.getD (l.pos + 1) '\x00' := by
  unfold readChar Lexer.ch
  split <;> simp_all

theorem skipWsLoopAux_startOfLine (n : Nat) :
    ∀ l : Lexer, (skipWsLoopAux n l).ch ≠ '\n' →
      (skipWsLoopAux n l).startOfLine = l.startOfLine := by
  induction n with
  | zero => intro l _; rfl
  | succ n ih =>
    intro l hch
    unfold skipWsLoopAux at hch ⊢
    by_cases hws : l.ch = ' ' ∨ l.ch = '\t'
    · rw [if_pos hws] at hch ⊢
      rw [ih (readChar l) hch]
      by_cases hnl : l.input.getD (l.pos + 1) '\x00' = '\n'
      · exfalso
        have hrc : (readChar l).ch = '\n' := by rw [readChar_ch]; exact hnl
        have hstop : skipWsLoopAux n (readChar l) = readChar l := by
          cases n with
          | zero => rfl
          | succ n =>
            unfold skipWsLoopAux
            rw [if_neg]
            rw [hrc]
            simp
        rw [hstop] at hch
        exact hch hrc
      · unfold readChar
        rw [if_neg hnl]
    · rw [if_neg hws] at hch ⊢

theorem skipWsLoop_startOfLine (l : Lexer) :
    (skipWsLoop l).ch ≠ '\n' → (skipWsLoop l).startOfLine = l.startOfLine :=
  skipWsLoopAux_startOfLine _ l

theorem skipWsLoopAux_inv {input : List Char}
    (hNL : input.getLast? = some '\n' ∨ input = []) (n : Nat) :
    ∀ l : Lexer, LexInv input l → LexInv input (skipWsLoopAux n l) := by
  induction n with
  | zero => intro l hInv; exact hInv
  | succ n ih =>
    intro l hInv
    unfold skipWsLoopAux
    split
    · exact ih (readChar l) (readChar_inv hNL hInv)
    · exact hInv

theorem skipWsLoop_inv {input : List Char}
    (hNL : input.getLast? = some '\n' ∨ input = []) (l : Lexer)
    (hInv : LexInv input l) : LexInv input (skipWsLoop l) :=
  skipWsLoopAux_inv hNL _ l hInv

theorem readStringLoopAux_indentStack (n : Nat) :
    ∀ l : Lexer, (readStringLoopAux n l).indentStack = l.indentStack := by
  induction n with
  | zero => intro l; rw [show readStringLoopAux 0 l = readChar l from rfl, readChar_indentStack]
  | succ n ih =>
    intro l
    unfold readStringLoopAux
    split
    · rw [readChar_indentStack]
    · rw [ih, readChar_indentStack]

theorem readStringLoop_indentStack (l : Lexer) :
    (readStringLoop l).indentStack = l.indentStack :=
  readStringLoopAux_indentStack _ l

theorem readStringLoopAux_inv {input : List Char}
    (hNL : input.getLast? = some '\n' ∨ input = []) (n : Nat) :
    ∀ l : Lexer, LexInv input l → LexInv input (readStringLoopAux n l) := by
  induction n with
  | zero => intro l hInv; exact readChar_inv hNL hInv
  | succ n ih =>
    intro l hInv
    unfold readStringLoopAux
    split
    · exact readChar_inv hNL hInv
    · exact ih (readChar l) (readChar_inv hNL hInv)

theorem readStringLoop_inv {input : List Char}
    (hNL : input.getLast? = some '\n' ∨ input = []) (l : Lexer)
    (hInv : LexInv input l) : LexInv input (readStringLoop l) :=
  readStringLoopAux_inv hNL _ l hInv

theorem identLoopAux_indentStack (n : Nat) :
    ∀ l : Lexer, (identLoopAux n l).indentStack = l.indentStack := by
  induction n with
  | zero => intro l; rfl
  | succ n ih =>
    intro l
    unfold identLoopAux
    split
    · rw [ih, readChar_indentStack]
    · rfl

theorem identLoop_indentStack (l : Lexer) : (identLoop l).indentStack = l.indentStack :=
  identLoopAux_indentStack _ l

theorem identLoopAux_inv {input : List Char}
    (hNL : input.getLast? = some '\n' ∨ input = []) (n : Nat) :
    ∀ l : Lexer, LexInv input l → LexInv input (identLoopAux n l) := by
  induction n with
  | zero => intro l hInv; exact hInv
  | succ n ih =>
    intro l hInv
    unfold identLoopAux
    split
    · exact ih (readChar l) (readChar_inv hNL hInv)
    · exact hInv

theorem identLoop_inv {input : List Char}
    (hNL : input.getLast? = some '\n' ∨ input = []) (l : Lexer)
    (hInv : LexInv input l) : LexInv input (identLoop l) :=
  identLoopAux_inv hNL _ l hInv

theorem digitLoopAux_indentStack (n : Nat) :
    ∀ l : Lexer, (digitLoopAux n l).indentStack = l.indentStack := by
  induction n with
  | zero => intro l; rfl
  | succ n ih =>
    intro l
    unfold digitLoopAux
    split
    · rw [ih, readChar_indentStack]
    · rfl

theorem digitLoop_indentStack (l : Lexer) : (digitLoop l).indentStack = l.indentStack :=
  digitLoopAux_indentStack _ l

theorem digitLoopAux_inv {input : List Char}
    (hNL : input.getLast? = some '\n' ∨ input = []) (n : Nat) :
    ∀ l : Lexer, LexInv input l → LexInv input (digitLoopAux n l) := by
  induction n with
  | zero => intro l hInv; exact hInv
  | succ n ih =>
    intro l hInv
    unfold digitLoopAux
    split
    · exact ih (readChar l) (readChar_inv hNL hInv)
    · exact hInv

theorem digitLoop_inv {input : List Char}
    (hNL : input.getLast? = some '\n' ∨ input = []) (l : Lexer)
    (hInv : LexInv input l) : LexInv input (digitLoop l) :=
  digitLoopAux_inv hNL _ l hInv

theorem LookupIdent_ne (s : String) :
    LookupIdent s ≠ INDENT ∧ LookupIdent s ≠ DEDENT ∧ LookupIdent s ≠ EOF := by
  unfold LookupIdent
  split_ifs <;> exact ⟨by decide, by decide, by decide⟩

theorem readString_fst_ttype (l : Lexer) : (readString l).1.ttype = STRING := rfl

theorem readString_snd (l : Lexer) : (readString l).2 = readChar (readStringLoop l) := rfl

theorem nonStructural_ne :
    ∀ ty ∈ [INT, ASSIGN, PLUS, ASTERISK, token.LT, GT, LPAREN, RPAREN, COLON,
            COMMA, STRING, ILLEGAL, NEWLINE],
      ty ≠ INDENT ∧ ty ≠ DEDENT ∧ ty ≠ EOF := by decide

/-- The token produced by `processToken` is never a structural
INDENT/DEDENT/EOF token; `processToken` leaves the indentation stack
unchanged and preserves the state invariant. -/
theorem processToken_spec {input : List Char}
    (hNL : input.getLast? = some '\n' ∨ input = []) (l : Lexer)
    (hInv : LexInv input l) :
    (processToken l).1.ttype ≠ INDENT ∧
    (processToken l).1.ttype ≠ DEDENT ∧
    (processToken l).1.ttype ≠ EOF ∧
    (processToken l).2.indentStack = l.indentStack ∧
    LexInv input (processToken l).2 := by
  unfold processToken
  by_cases h1 : isLetter l.ch = true
  · rw [if_pos h1]
    exact ⟨(LookupIdent_ne _).1, (LookupIdent_ne _).2.1, (LookupIdent_ne _).2.2,
      (identLoop_indentStack (readChar l)).trans (readChar_indentStack l),
      identLoop_inv hNL _ (readChar_inv hNL hInv)⟩
  rw [if_neg h1]
  by_cases h2 : isDigit l.ch = true
  · rw [if_pos h2]
    have h := nonStructural_ne INT (by decide)
    exact ⟨h.1, h.2.1, h.2.2, digitLoop_indentStack l, digitLoop_inv hNL l hInv⟩
  rw [if_neg h2]
  by_cases h3 : l.ch = '='
  · rw [if_pos h3]
    have h := nonStructural_ne ASSIGN (by decide)
    exact ⟨h.1, h.2.1, h.2.2, readChar_indentStack l, readChar_inv hNL hInv⟩
  rw [if_neg h3]
  by_cases h4 : l.ch = '+'
  · rw [if_pos h4]
    have h := nonStructural_ne PLUS (by decide)
    exact ⟨h.1, h.2.1, h.2.2, readChar_indentStack l, readChar_inv hNL hInv⟩
  rw [if_neg h4]
  by_cases h5 : l.ch = '*'
  · rw [if_pos h5]
    have h := nonStructural_ne ASTERISK (by decide)
    exact ⟨h.1, h.2.1, h.2.2, readChar_indentStack l, readChar_inv hNL hInv⟩
  rw [if_neg h5]
  by_cases h6 : l.ch = '<'
  · rw [if_pos h6]
    have h := nonStructural_ne token.LT (by decide)
    exact ⟨h.1, h.2.1, h.2.2, readChar_indentStack l, readChar_inv hNL hInv⟩
  rw [if_neg h6]
  by_cases h7 : l.ch = '>'
  · rw [if_pos h7]
    have h := nonStructural_ne GT (by decide)
    exact ⟨h.1, h.2.1, h.2.2, readChar_indentStack l, readChar_inv hNL hInv⟩
  rw [if_neg h7]
  by_cases h8 : l.ch = '('
  · rw [if_pos h8]
    have h := nonStructural_ne LPAREN (by decide)
    exact ⟨h.1, h.2.1, h.2.2, readChar_indentStack l, readChar_inv hNL hInv⟩
  rw [if_neg h8]
  by_cases h9 : l.ch = ')'
  · rw [if_pos h9]
    have h := nonStructural_ne RPAREN (by decide)
    exact ⟨h.1, h.2.1, h.2.2, readChar_indentStack l, readChar_inv hNL hInv⟩
  rw [if_neg h9]
  by_cases h10 : l.ch = ':'
  · rw [if_pos h10]
    have h := nonStructural_ne COLON (by decide)
    exact ⟨h.1, h.2.1, h.2.2, readChar_indentStack l, readChar_inv hNL hInv⟩
  rw [if_neg h10]
  by_cases h11 : l.ch = ','
  · rw [if_pos h11]
    have h := nonStructural_ne COMMA (by decide)
    exact ⟨h.1, h.2.1, h.2.2, readChar_indentStack l, readChar_inv hNL hInv⟩
  rw [if_neg h11]
  by_cases h12 : l.ch = '"'
  · rw [if_pos h12]
    have h := nonStructural_ne STRING (by decide)
    exact ⟨h.1, h.2.1, h.2.2,
      (readChar_indentStack _).trans (readStringLoop_indentStack l),
      readChar_inv hNL (readStringLoop_inv hNL _ hInv)⟩
  rw [if_neg h12]
  have h := nonStructural_ne ILLEGAL (by decide)
  exact ⟨h.1, h.2.1, h.2.2, readChar_indentStack l, readChar_inv hNL hInv⟩

theorem ch_nul_ge {l : Lexer} (hNoNul : '\x00' ∉ l.input) (h : l.ch = '\x00') :
    l.input.length ≤ l.pos := by
  by_contra hlt
  have hlt' : l.pos < l.input.length := Nat.lt_of_not_le hlt
  have hmem : l.input[l.pos] ∈ l.input := List.getElem_mem hlt'
  have : l.input.getD l.pos '\x00' = l.input[l.pos] := List.getD_eq_getElem _ _ hlt'
  rw [show l.input.getD l.pos '\x00' = l.ch from rfl, h] at this
  rw [← this] at hmem
  exact hNoNul hmem

/-- Behaviour of the DEDENT/INDENT decision: an early return is one INDENT
(stack grows by one) or one DEDENT (stack shrinks by one); falling through
leaves the state untouched and forces the tab count to equal the stack
height minus one. -/
theorem indentDecision_spec {input : List Char} (iL : Int) (hiL : 0 ≤ iL)
    (l3 : Lexer) (hInv : LexInv input l3) (ot : Option Token) (ls : Lexer)
    (hD : indentDecision iL l3 = (ot, ls)) :
    LexInv input ls ∧
    (match ot with
     | some t =>
        (t.ttype = INDENT ∧ ls.indentStack.length = l3.indentStack.length + 1) ∨
        (t.ttype = DEDENT ∧ l3.indentStack.length = ls.indentStack.length + 1) ∨
        (t.ttype = ILLEGAL ∧ ls.indentStack = l3.indentStack)
     | none => ls = l3 ∧ (l3.ch ≠ '\n' → iL = (l3.indentStack.length : Int) - 1)) := by
  unfold indentDecision at hD
  by_cases hd : iL < (l3.indentStack.length : Int) - 1 ∧ l3.ch ≠ '\n'
  · rw [if_pos hd] at hD
    injection hD with h1 h2
    subst h1
    subst h2
    have hlen2 : 2 ≤ l3.indentStack.length := by
      have := hd.1
      omega
    refine ⟨⟨hInv.1, ?_, hInv.2.2.1, hInv.2.2.2⟩, ?_⟩
    · simp only [List.length_dropLast]
      omega
    · refine Or.inr (Or.inl ⟨rfl, ?_⟩)
      simp only [List.length_dropLast]
      omega
  · rw [if_neg hd] at hD
    by_cases hi : iL > (l3.indentStack.length : Int) - 1
    · rw [if_pos hi] at hD
      injection hD with h1 h2
      subst h1
      subst h2
      refine ⟨⟨hInv.1, by simp, hInv.2.2.1, hInv.2.2.2⟩, ?_⟩
      refine Or.inl ⟨rfl, by simp⟩
    · rw [if_neg hi] at hD
      injection hD with h1 h2
      subst h1
      subst h2
      refine ⟨hInv, rfl, ?_⟩
      intro hnl
      have : ¬ iL < (l3.indentStack.length : Int) - 1 := fun hlt => hd ⟨hlt, hnl⟩
      omega

theorem startOfLineStep_spec {input : List Char}
    (hNL : input.getLast? = some '\n' ∨ input = [])
    (hNoNul : '\x00' ∉ input) (l : Lexer) (hInv : LexInv input l)
    (ot : Option Token) (ls : Lexer)
    (hS : startOfLineStep l = (ot, ls)) :
    LexInv input ls ∧
    (match ot with
     | some t =>
        (t.ttype = INDENT ∧ ls.indentStack.length = l.indentStack.length + 1) ∨
        (t.ttype = DEDENT ∧ l.indentStack.length = ls.indentStack.length + 1) ∨
        (t.ttype = ILLEGAL ∧ ls.indentStack = l.indentStack)
     | none =>
        ls.indentStack = l.indentStack ∧
        (ls.ch = '\x00' → l.indentStack.length = 1)) := by
  unfold startOfLineStep at hS
  by_cases hsol : l.startOfLine = true
  · rw [if_pos hsol] at hS
    by_cases hsp : ({ l with column := 1 } : Lexer).ch = ' '
    · rw [if_pos hsp] at hS
      injection hS with h1 h2
      subst h1
      subst h2
      exact ⟨hInv, Or.inr (Or.inr ⟨rfl, rfl⟩)⟩
    · rw [if_neg hsp] at hS
      rcases hct : countTabs { l with column := 1 } 0 with ⟨iL, l2⟩
      rw [hct] at hS
      simp only at hS
      have hInv1 : LexInv input ({ l with column := 1 } : Lexer) := hInv
      have hInv2 : LexInv input l2 := by
        have := countTabs_inv hNL ({ l with column := 1 } : Lexer) 0 hInv1
        rwa [hct] at this
      have hstack2 : l2.indentStack = l.indentStack := by
        have := countTabs_indentStack ({ l with column := 1 } : Lexer) 0
        rwa [hct] at this
      have hinput2 : l2.input = input := hInv2.1
      have hiL : 0 ≤ iL := by
        have := countTabs_ge ({ l with column := 1 } : Lexer) 0
        rwa [hct] at this
      by_cases hempty : l2.ch = '\n' ∨ l2.ch = '\x00'
      · rw [if_pos hempty] at hS
        have hInv3 : LexInv input ({ l2 with startOfLine := true } : Lexer) :=
          ⟨hInv2.1, hInv2.2.1, fun _ => rfl, fun _ => rfl⟩
        obtain ⟨hInvLs, hmatch⟩ := indentDecision_spec iL hiL _ hInv3 ot ls hS
        refine ⟨hInvLs, ?_⟩
        cases ot with
        | some t =>
          simp only at hmatch ⊢
          rw [hstack2] at hmatch
          exact hmatch
        | none =>
          simp only at hmatch ⊢
          obtain ⟨rfl, hEqImp⟩ := hmatch
          refine ⟨hstack2, ?_⟩
          intro hch0
          have hch0' : l2.ch = '\x00' := hch0
          have hEq := hEqImp (by
            intro hc
            rw [show ({ l2 with startOfLine := true } : Lexer).ch = l2.ch from rfl, hch0'] at hc
            exact absurd hc (by decide))
          -- the tab count must be zero: a positive count would mean the
          -- input ends in a tab, contradicting the trailing newline
          have hiL0 : iL = 0 := by
            by_contra hiLpos
            have hpos : 0 < iL := by omega
            have hlast := countTabs_last ({ l with column := 1 } : Lexer) 0
              (by rw [hct]; exact hpos)
            rw [hct] at hlast
            have hle : l2.pos ≤ l.input.length := hlast.1
            have hge1 : 1 ≤ l2.pos := hlast.2.1
            have htab : l.input.getD (l2.pos - 1) '\x00' = '\t' := hlast.2.2
            have hge : l2.input.length ≤ l2.pos :=
              ch_nul_ge (by rw [hinput2]; exact hNoNul) hch0'
            have hlin : l.input = input := hInv.1
            rw [hinput2] at hge
            rw [hlin] at hle htab
            have hposEq : l2.pos = input.length := by omega
            have hne' : input ≠ [] := by
              intro h0
              rw [h0] at hposEq
              simp at hposEq
              omega
            have hNL' := getLast_getD hne' (hNL.resolve_right hne')
            rw [hposEq] at htab
            rw [htab] at hNL'
            exact absurd hNL' (by decide)
          have hstl : ({ l2 with startOfLine := true } : Lexer).indentStack
              = l.indentStack := hstack2
          rw [hstl] at hEq
          omega
      · rw [if_neg hempty] at hS
        push_neg at hempty
        have hchne : l2.ch ≠ '\x00' := hempty.2
        have hInv3 : LexInv input
            ({ l2 with startOfLine := false, column := iL + 1, lineLength := iL + 1 } : Lexer) := by
          refine ⟨hInv2.1, hInv2.2.1, ?_, ?_⟩
          · intro hc
            exact absurd hc hempty.1
          · intro hge
            exfalso
            have := ch_ne_nul_lt (l := l2) hchne
            simp only at hge
            omega
        obtain ⟨hInvLs, hmatch⟩ := indentDecision_spec iL hiL _ hInv3 ot ls hS
        refine ⟨hInvLs, ?_⟩
        cases ot with
        | some t =>
          simp only at hmatch ⊢
          rw [hstack2] at hmatch
          exact hmatch
        | none =>
          simp only at hmatch ⊢
          obtain ⟨rfl, _⟩ := hmatch
          refine ⟨hstack2, ?_⟩
          intro hch0
          exact absurd hch0 hchne
  · rw [if_neg hsol] at hS
    injection hS with h1 h2
    subst h1
    subst h2
    refine ⟨hInv, rfl, ?_⟩
    intro hch0
    exfalso
    have hge : l.input.length ≤ l.pos := ch_nul_ge (hInv.1 ▸ hNoNul) hch0
    have := hInv.2.2.2 hge
    exact hsol this

theorem skipWhitespace_indentStack (l : Lexer) :
    (skipWhitespace l).indentStack = l.indentStack := by
  unfold skipWhitespace
  split
  · exact skipWsLoop_indentStack l
  · rfl

theorem skipWhitespace_inv {input : List Char}
    (hNL : input.getLast? = some '\n' ∨ input = []) (l : Lexer)
    (hInv : LexInv input l) : LexInv input (skipWhitespace l) := by
  unfold skipWhitespace
  split
  · exact skipWsLoop_inv hNL l hInv
  · exact hInv

/-- One `NextToken` step: the invariant is preserved; an INDENT token grows
the indentation stack by one, a DEDENT token shrinks it by one, any other
token leaves it unchanged; and the EOF token is only ever emitted with the
stack back at its single initial level. -/
theorem nextToken_spec {input : List Char}
    (hNL : input.getLast? = some '\n' ∨ input = [])
    (hNoNul : '\x00' ∉ input) (l : Lexer) (hInv : LexInv input l)
    (t : Token) (l' : Lexer) (hNT : nextToken l = (t, l')) :
    LexInv input l' ∧
    ((t.ttype = INDENT ∧ l'.indentStack.length = l.indentStack.length + 1) ∨
     (t.ttype = DEDENT ∧ l.indentStack.length = l'.indentStack.length + 1) ∨
     (t.ttype ≠ INDENT ∧ t.ttype ≠ DEDENT ∧
      l'.indentStack.length = l.indentStack.length ∧
      (t.ttype = EOF → l.indentStack.length = 1))) := by
  unfold nextToken at hNT
  rcases hS : startOfLineStep l with ⟨ot, ls⟩
  rw [hS] at hNT
  obtain ⟨hInvLs, hmatch⟩ := startOfLineStep_spec hNL hNoNul l hInv ot ls hS
  cases ot with
  | some t0 =>
    simp only at hNT hmatch
    injection hNT with h1 h2
    subst h1
    subst h2
    rcases hmatch with ⟨hty, hlen⟩ | ⟨hty, hlen⟩ | ⟨hty, hst⟩
    · exact ⟨hInvLs, Or.inl ⟨hty, hlen⟩⟩
    · exact ⟨hInvLs, Or.inr (Or.inl ⟨hty, hlen⟩)⟩
    · refine ⟨hInvLs, Or.inr (Or.inr ⟨?_, ?_, by rw [hst], ?_⟩)⟩
      · rw [hty]; decide
      · rw [hty]; decide
      · rw [hty]; intro h; exact absurd h (by decide)
  | none =>
    simp only at hNT hmatch
    obtain ⟨hstackLs, hEOFcl⟩ := hmatch
    by_cases hcr : ls.ch = '\r'
    · rw [if_pos hcr] at hNT
      injection hNT with h1 h2
      subst h1
      subst h2
      have h := nonStructural_ne ILLEGAL (by decide)
      exact ⟨hInvLs, Or.inr (Or.inr ⟨h.1, h.2.1, by rw [hstackLs],
        fun hEq => absurd hEq (by intro hc; exact h.2.2 hc)⟩)⟩
    · rw [if_neg hcr] at hNT
      have hInv2 : LexInv input (skipWhitespace ls) := skipWhitespace_inv hNL ls hInvLs
      have hstack2 : (skipWhitespace ls).indentStack = l.indentStack := by
        rw [skipWhitespace_indentStack, hstackLs]
      by_cases hEOF : (skipWhitespace ls).ch = '\x00'
      · rw [if_pos hEOF] at hNT
        injection hNT with h1 h2
        subst h1
        subst h2
        have hEOFne1 : (EOF : TokenType) ≠ INDENT := by decide
        have hEOFne2 : (EOF : TokenType) ≠ DEDENT := by decide
        refine ⟨hInv2, Or.inr (Or.inr ⟨hEOFne1, hEOFne2, by rw [hstack2], ?_⟩)⟩
        intro _
        -- the stack height at EOF: the fall-through state must itself sit at
        -- the zero byte, which the start-of-line block only allows at level 1
        have hsol2 : (skipWhitespace ls).startOfLine = true := by
          have hge : (skipWhitespace ls).input.length ≤ (skipWhitespace ls).pos :=
            ch_nul_ge (hInv2.1 ▸ hNoNul) hEOF
          exact hInv2.2.2.2 hge
        have hls0 : ls.ch = '\x00' := by
          unfold skipWhitespace at hEOF hsol2
          by_cases hsl : !ls.startOfLine
          · rw [if_pos hsl] at hEOF hsol2
            have := skipWsLoop_startOfLine ls (by rw [hEOF]; decide)
            rw [hsol2] at this
            simp at hsl
            rw [hsl] at this
            exact absurd this.symm (by decide)
          · rw [if_neg hsl] at hEOF
            exact hEOF
        exact hEOFcl hls0
      · rw [if_neg hEOF] at hNT
        by_cases hnl : (skipWhitespace ls).ch = '\n'
        · rw [if_pos hnl] at hNT
          injection hNT with h1 h2
          subst h1
          subst h2
          have h := nonStructural_ne NEWLINE (by decide)
          refine ⟨?_, Or.inr (Or.inr ⟨h.1, h.2.1, ?_, fun hEq => absurd hEq h.2.2⟩)⟩
          · refine ⟨?_, ?_, fun _ => rfl, fun _ => rfl⟩
            · exact (readChar_input _).trans hInv2.1
            · rw [readChar_indentStack]
              exact hInv2.2.1
          · rw [readChar_indentStack, hstack2]
        · rw [if_neg hnl] at hNT
          rcases hPT : processToken (skipWhitespace ls) with ⟨tk, l3⟩
          rw [hPT] at hNT
          simp only at hNT
          have hps := processToken_spec hNL (skipWhitespace ls) hInv2
          rw [hPT] at hps
          obtain ⟨hne1, hne2, hne3, hst3, hInv3⟩ := hps
          by_cases hcolon : tk.ttype = COLON
          · rw [if_pos hcolon] at hNT
            injection hNT with h1 h2
            subst h1
            subst h2
            refine ⟨⟨hInv3.1, hInv3.2.1, hInv3.2.2.1, hInv3.2.2.2⟩,
              Or.inr (Or.inr ⟨hne1, hne2, ?_, fun hEq => absurd hEq hne3⟩)⟩
            show l3.indentStack.length = l.indentStack.length
            rw [hst3, hstack2]
          · rw [if_neg hcolon] at hNT
            injection hNT with h1 h2
            subst h1
            subst h2
            refine ⟨hInv3, Or.inr (Or.inr ⟨hne1, hne2, ?_, fun hEq => absurd hEq hne3⟩)⟩
            rw [hst3, hstack2]

theorem countType_cons (t : Token) (ts : List Token) (ty : TokenType) :
    countType (t :: ts) ty
      = (if t.ttype = ty then 1 else 0) + countType ts ty := by
  simp only [countType, List.filter_cons]
  split <;> simp_all [Nat.add_comm]

theorem lexerNew_inv (input : List Char) : LexInv input (lexerNew input) := by
  unfold lexerNew
  split <;> exact ⟨rfl, by simp, fun _ => rfl, fun _ => rfl⟩

theorem lexerNew_indentStack (input : List Char) :
    (lexerNew input).indentStack = [0] := by
  unfold lexerNew
  split <;> rfl

/-- Over any run of the lexer that reaches EOF, the number of DEDENT tokens
emitted plus the height of the starting indentation stack equals the
number of INDENT tokens plus one. -/
theorem tokenStream_balance {input : List Char}
    (hNL : input.getLast? = some '\n' ∨ input = [])
    (hNoNul : '\x00' ∉ input) :
    ∀ (fuel : Nat) (l : Lexer), LexInv input l →
      (tokenStream fuel l).any (fun t => t.ttype = EOF) = true →
      countType (tokenStream fuel l) DEDENT + 1
        = countType (tokenStream fuel l) INDENT + l.indentStack.length := by
  intro fuel
  induction fuel with
  | zero =>
    intro l _ hany
    simp [tokenStream] at hany
  | succ f ih =>
    intro l hInv hany
    rcases hNT : nextToken l with ⟨t, l'⟩
    obtain ⟨hInv', hcases⟩ := nextToken_spec hNL hNoNul l hInv t l' hNT
    have hstream : tokenStream (f + 1) l
        = if t.ttype = EOF then [t] else t :: tokenStream f l' := by
      simp only [tokenStream, hNT]
    rw [hstream] at hany ⊢
    by_cases hEOF : t.ttype = EOF
    · rw [if_pos hEOF] at hany ⊢
      have hlen1 : l.indentStack.length = 1 := by
        rcases hcases with ⟨hty, _⟩ | ⟨hty, _⟩ | ⟨_, _, _, himp⟩
        · rw [hEOF] at hty; exact absurd hty (by decide)
        · rw [hEOF] at hty; exact absurd hty (by decide)
        · exact himp hEOF
      have hcD : countType [t] DEDENT = 0 := by
        simp [countType, List.filter_cons, hEOF, EOF, DEDENT]
      have hcI : countType [t] INDENT = 0 := by
        simp [countType, List.filter_cons, hEOF, EOF, INDENT]
      rw [hcD, hcI, hlen1]
    · rw [if_neg hEOF] at hany ⊢
      have hany' : (tokenStream f l').any (fun t => t.ttype = EOF) = true := by
        simp only [List.any_cons, Bool.or_eq_true] at hany
        rcases hany with h | h
        · exact absurd (by simpa using h) hEOF
        · exact h
      have hIH := ih l' hInv' hany'
      rw [countType_cons, countType_cons]
      rcases hcases with ⟨hty, hlen⟩ | ⟨hty, hlen⟩ | ⟨hty1, hty2, hlen, _⟩
      · have hI : (if t.ttype = INDENT then 1 else 0) = 1 := by rw [hty]; simp
        have hD : (if t.ttype = DEDENT then 1 else 0) = 0 := by rw [hty]; decide
        rw [hI, hD]
        omega
      · have hI : (if t.ttype = INDENT then 1 else 0) = 0 := by rw [hty]; decide
        have hD : (if t.ttype = DEDENT then 1 else 0) = 1 := by rw [hty]; simp
        rw [hI, hD]
        omega
      · have hI : (if t.ttype = INDENT then 1 else 0) = 0 := by simp [hty1]
        have hD : (if t.ttype = DEDENT then 1 else 0) = 0 := by simp [hty2]
        rw [hI, hD]
        omega

/-- C8: the counterexample.  The input "a:\n\tb" is indentation-well-formed
(tab-only, one consistent indent step) but does not end in a newline; the
full token stream reaches EOF having emitted one INDENT and no DEDENT, so
the INDENT and DEDENT counts differ.  (The lexer's own test for an input
ending inside a while-block likewise expects the stream to end INT-then-EOF
with no closing DEDENT.) -/
theorem indent_dedent_unbalanced_counterexample :
    ((lexAll 16 "a:\n\tb".toList).any (fun t => t.ttype = token.EOF) = true) ∧
    countType (lexAll 16 "a:\n\tb".toList) token.INDENT = 1 ∧
    countType (lexAll 16 "a:\n\tb".toList) token.DEDENT = 0 := by
  refine ⟨?_, ?_, ?_⟩ <;> rfl

/-- C8 (amended): for every input that contains no zero byte and whose last
character is a newline (or that is empty), if repeatedly calling NextToken
reaches EOF then the number of INDENT tokens in the emitted stream equals
the number of DEDENT tokens: the indentation stack is back at its single
initial level 0 when EOF is emitted. -/
theorem indent_dedent_balanced (input : List Char) (fuel : Nat)
    (hNL : input.getLast? = some '\n' ∨ input = [])
    (hNoNul : '\x00' ∉ input)
    (hEOF : (lexAll fuel input).any (fun t => t.ttype = token.EOF) = true) :
    countType (lexAll fuel input) token.INDENT
      = countType (lexAll fuel input) token.DEDENT := by
  have hbal := tokenStream_balance hNL hNoNul fuel (lexerNew input) (lexerNew_inv input)
    (by unfold lexAll at hEOF; exact hEOF)
  have hlen : (lexerNew input).indentStack.length = 1 := by
    rw [lexerNew_indentStack]
    rfl
  unfold lexAll
  rw [hlen] at hbal
  omega

/-- C8: witness for the amended theorem at the concrete input "a:\n\tb\n". -/
theorem indent_dedent_balanced_witness :
    countType (lexAll 16 "a:\n\tb\n".toList) token.INDENT
      = countType (lexAll 16 "a:\n\tb\n".toList) token.DEDENT :=
  indent_dedent_balanced "a:\n\tb\n".toList 16 (by rfl |> Or.inl) (by decide) (by rfl)

end lexer

/-! ## Package `ast` (from `src/packages/ast/ast.go`)

Fields that the Go code only ever checks against nil when the parser can
actually produce nil there are modelled with `Option`: a parse function
that returns a nil node is `none`, `IfStatement.Alternative` is
`Option (List Statement)` (nil unless an else-branch was parsed), and a
block body is `Option (List Statement)` because `parseBlockStatement`
returns a nil slice both on a missing INDENT and when no statement was
collected.  Child expression fields are always non-nil in trees built by
this parser, so they are plain `Expression`.
-/

namespace ast

open token

inductive Expression where
  | identifier (tok : Token) (value : String)
  | integerLiteral (tok : Token) (value : String)
  | stringLiteral (tok : Token) (value : String)
  | binary (left : Expression) (operator : String) (right : Expression)
  | functionCall (tok : Token) (function : String) (arguments : List Expression)
deriving Repr

inductive Statement where
  | functionDefinition (tok : Token) (name : String) (parameters : List String)
      (body : List Statement)
  | ifStatement (tok : Token) (condition : Expression)
      (consequence : List Statement) (alternative : Option (List Statement))
  | whileStatement (tok : Token) (condition : Expression) (body : List Statement)
  | assignment (tok : Token) (name : String) (value : Expression)
  | printStatement (tok : Token) (value : Expression)
  | returnStatement (tok : Token) (value : Expression)
  | expressionStatement (expression : Expression)
deriving Repr

structure Program where
  statements : List Statement
deriving Repr

end ast

/-! ## Package `parser` (from `src/packages/parser/parser.go`)

The parser pulls tokens from the lexer one at a time; the embedding feeds
it the finite token list instead, with further pulls yielding EOF tokens
(which is what the lexer returns once exhausted).  The Go parser's loops
have no termination guarantee (several failure modes leave the cursor in
place), so every parse function takes a fuel argument, decremented on
every call; `none` as the outer result means the fuel ran out, i.e. the
corresponding Go run has not (yet) returned.  The inner `Option` is a Go
nil result.
-/

namespace parser

open token ast

/-- The zero value of `token.Token`, the initial current/peek/prev tokens. -/
def zeroToken : Token := { ttype := "", literal := "", line := 0, column := 0 }

/-- The token produced for pulls past the end of the stream (the lexer at
exhaustion keeps returning EOF tokens). -/
def eofToken : Token := { ttype := EOF, literal := "", line := 0, column := 0 }

structure Parser where
  stream : List Token
  currentToken : Token
  peekToken : Token
  prevToken : Token
  errors : List String
deriving Repr

/-- Mirrors the parser's `nextToken`. -/
def pNextToken (p : Parser) : Parser :=
  { p with prevToken := p.currentToken, currentToken := p.peekToken,
           peekToken := p.stream.headD eofToken, stream := p.stream.tail }

/-- Mirrors `New`: read one token into peekToken, then advance once. -/
def parserNew (toks : List Token) : Parser :=
  let p0 : Parser := { stream := toks, currentToken := zeroToken,
                       peekToken := zeroToken, prevToken := zeroToken, errors := [] }
  let p1 := { p0 with peekToken := p0.stream.headD eofToken, stream := p0.stream.tail }
  pNextToken p1

/-- Mirrors `addError`: note the hard-coded `line 1` prefix. -/
def addError (p : Parser) (msg : String) : Parser :=
  { p with errors := p.errors ++ ["line 1: " ++ msg] }

/-- Mirrors `expectPeek`. -/
def expectPeek (p : Parser) (t : TokenType) : Bool × Parser :=
  if p.peekToken.ttype = t then (true, pNextToken p) else (false, p)

/-- The parameter loop of `parseFunctionDefinition`. -/
def parseParams : Nat → Parser → List String → Option (Option (List String) × Parser)
  | 0, _, _ => none
  | fuel + 1, p, acc =>
    if p.currentToken.ttype = RPAREN then some (some acc, p)
    else if p.currentToken.ttype ≠ IDENT then
      some (none, addError p "Expected parameter name")
    else
      let acc := acc ++ [p.currentToken.literal]
      let p := pNextToken p
      let p := if p.currentToken.ttype = COMMA then pNextToken p else p
      parseParams fuel p acc

mutual

/-- Mirrors `parseStatement`: dispatch on the current token. -/
def parseStatement : Nat → Parser → Option (Option Statement × Parser)
  | 0, _ => none
  | fuel + 1, p =>
    if p.currentToken.ttype = PRINT then parsePrintStatement fuel p
    else if p.currentToken.ttype = IF then parseIfStatement fuel p
    else if p.currentToken.ttype = WHILE then parseWhileStatement fuel p
    else if p.currentToken.ttype = DEF then parseFunctionDefinition fuel p
    else if p.currentToken.ttype = RETURN then parseReturnStatement fuel p
    else if p.currentToken.ttype = IDENT then
      if p.peekToken.ttype = ASSIGN then parseAssignmentStatement fuel p
      else parseExpressionStatement fuel p
    else some (none, p)

/-- Mirrors `parseAssignmentStatement`. -/
def parseAssignmentStatement : Nat → Parser → Option (Option Statement × Parser)
  | 0, _ => none
  | fuel + 1, p =>
    let tok := p.currentToken
    let name := p.currentToken.literal
    let p := pNextToken p
    if p.currentToken.ttype ≠ ASSIGN then
      some (none, addError p "Expected '=' after identifier")
    else
      let p := pNextToken p
      match parseExpression fuel p with
      | none => none
      | some (none, p) => some (none, p)
      | some (some v, p) => some (some (.assignment tok name v), p)

/-- Mirrors `parseExpressionStatement`. -/
def parseExpressionStatement : Nat → Parser → Option (Option Statement × Parser)
  | 0, _ => none
  | fuel + 1, p =>
    match parseExpression fuel p with
    | none => none
    | some (none, p) => some (none, p)
    | some (some e, p) =>
      let p := if p.peekToken.ttype = EOF ∨ p.peekToken.ttype = NEWLINE
               then pNextToken p else p
      some (some (.expressionStatement e), p)

/-- Mirrors `parseReturnStatement`. -/
def parseReturnStatement : Nat → Parser → Option (Option Statement × Parser)
  | 0, _ => none
  | fuel + 1, p =>
    let tok := p.currentToken
    let p := pNextToken p
    match parseExpression fuel p with
    | none => none
    | some (none, p) => some (none, p)
    | some (some v, p) =>
      let p := if p.peekToken.ttype = EOF ∨ p.peekToken.ttype = NEWLINE
               then pNextToken p else p
      some (some (.returnStatement tok v), p)

/-- Mirrors `parseFunctionDefinition`. -/
def parseFunctionDefinition : Nat → Parser → Option (Option Statement × Parser)
  | 0, _ => none
  | fuel + 1, p =>
    let tok := p.currentToken
    if p.peekToken.ttype ≠ IDENT then
      some (none, addError p "Expected function name after 'def'")
    else
      let p := pNextToken p
      let name := p.currentToken.literal
      if p.peekToken.ttype ≠ LPAREN then
        some (none, addError p "Expected '(' after function name")
      else
        let p := pNextToken p
        let p := pNextToken p
        match parseParams fuel p [] with
        | none => none
        | some (none, p) => some (none, p)
        | some (some params, p) =>
          if p.peekToken.ttype ≠ COLON then
            some (none, addError p "Expected ':' after parameters")
          else
            let p := pNextToken p
            if p.peekToken.ttype ≠ NEWLINE then
              some (none, addError p "Expected newline after ':'")
            else
              let p := pNextToken p
              let p := pNextToken p
              match parseBlockStatement fuel p with
              | none => none
              | some (none, p) => some (none, p)
              | some (some body, p) =>
                some (some (.functionDefinition tok name params body), p)

/-- Mirrors `parseExpression`: primary expression, then at most one binary
operator continuation (flat, no precedence). -/
def parseExpression : Nat → Parser → Option (Option Expression × Parser)
  | 0, _ => none
  | fuel + 1, p =>
    if p.currentToken.ttype = LPAREN then parseGroupedExpression fuel p
    else if p.currentToken.ttype = IDENT ∧ p.peekToken.ttype = LPAREN then
      parseFunctionCall fuel p
    else if p.currentToken.ttype = IDENT then
      parseExpressionRest fuel (.identifier p.currentToken p.currentToken.literal) p
    else if p.currentToken.ttype = INT then
      parseExpressionRest fuel (.integerLiteral p.currentToken p.currentToken.literal) p
    else if p.currentToken.ttype = STRING then
      parseExpressionRest fuel (.stringLiteral p.currentToken p.currentToken.literal) p
    else if p.currentToken.ttype = EOF then
      some (none, addError p "'(' was never closed")
    else
      some (none, p)

/-- The operator continuation at the end of `parseExpression` (lines
266-302 of parser.go): `+ * > <` only, right operand by recursion. -/
def parseExpressionRest : Nat → Expression → Parser → Option (Option Expression × Parser)
  | 0, _, _ => none
  | fuel + 1, leftExp, p =>
    if p.peekToken.ttype = PLUS ∨ p.peekToken.ttype = ASTERISK ∨
       p.peekToken.ttype = GT ∨ p.peekToken.ttype = token.LT then
      let op := p.peekToken
      let p := pNextToken p
      let p := pNextToken p
      match parseExpression fuel p with
      | none => none
      | some (none, p) => some (none, p)
      | some (some rightExp, p) =>
        some (some (.binary leftExp op.literal rightExp), p)
    else
      let p := if p.peekToken.ttype = EOF ∨ p.peekToken.ttype = NEWLINE
               then pNextToken p else p
      some (some leftExp, p)

/-- Mirrors `parseFunctionCall`. -/
def parseFunctionCall : Nat → Parser → Option (Option Expression × Parser)
  | 0, _ => none
  | fuel + 1, p =>
    let tok := p.currentToken
    let funcName := p.currentToken.literal
    let p := pNextToken p
    let p := pNextToken p
    parseCallArgs fuel tok funcName [] p

/-- The argument loop of `parseFunctionCall`. -/
def parseCallArgs : Nat → Token → String → List Expression → Parser →
    Option (Option Expression × Parser)
  | 0, _, _, _, _ => none
  | fuel + 1, tok, funcName, args, p =>
    if p.currentToken.ttype = RPAREN then
      some (some (.functionCall tok funcName args), pNextToken p)
    else
      match parseExpression fuel p with
      | none => none
      | some (none, p) => some (none, p)
      | some (some arg, p) =>
        let args := args ++ [arg]
        let p := pNextToken p
        if p.currentToken.ttype = COMMA then
          parseCallArgs fuel tok funcName args (pNextToken p)
        else if p.currentToken.ttype ≠ RPAREN then
          some (none, addError p "Expected ',' or ')' after argument")
        else
          parseCallArgs fuel tok funcName args p

/-- Mirrors `parseGroupedExpression`. -/
def parseGroupedExpression : Nat → Parser → Option (Option Expression × Parser)
  | 0, _ => none
  | fuel + 1, p =>
    let p := pNextToken p
    match parseExpression fuel p with
    | none => none
    | some (none, p) => some (none, p)
    | some (some e, p) =>
      let (ok, p) := expectPeek p RPAREN
      if !ok then some (none, addError p "'(' was never closed")
      else some (some e, pNextToken p)

/-- Mirrors `parsePrintStatement`. -/
def parsePrintStatement : Nat → Parser → Option (Option Statement × Parser)
  | 0, _ => none
  | fuel + 1, p =>
    let tok := p.currentToken
    if p.peekToken.ttype ≠ LPAREN then
      some (none, addError p "Expected '(' after print")
    else
      let p := pNextToken p
      let p := pNextToken p
      match parseExpression fuel p with
      | none => none
      | some (none, p) => some (none, p)
      | some (some v, p) =>
        if p.peekToken.ttype ≠ RPAREN then
          some (none, addError p "Expected ')' after expression")
        else
          some (some (.printStatement tok v), pNextToken (pNextToken p))

/-- Mirrors `parseIfStatement`. -/
def parseIfStatement : Nat → Parser → Option (Option Statement × Parser)
  | 0, _ => none
  | fuel + 1, p =>
    let tok := p.currentToken
    let p := pNextToken p
    match parseExpression fuel p with
    | none => none
    | some (none, p) => some (none, p)
    | some (some cond, p) =>
      let (ok, p) := expectPeek p COLON
      if !ok then some (none, addError p "Expected ':' after if condition")
      else
        let (ok, p) := expectPeek p NEWLINE
        if !ok then some (none, p)
        else
          let (ok, p) := expectPeek p INDENT
          if !ok then some (none, p)
          else
            match parseBlockStatement fuel p with
            | none => none
            | some (none, p) => some (none, p)
            | some (some consequence, p) =>
              if p.currentToken.ttype = ELSE then
                let (ok, p) := expectPeek p COLON
                if !ok then some (none, p)
                else
                  let (ok, p) := expectPeek p NEWLINE
                  if !ok then some (none, p)
                  else
                    let (ok, p) := expectPeek p INDENT
                    if !ok then some (none, p)
                    else
                      match parseBlockStatement fuel p with
                      | none => none
                      | some (none, p) => some (none, p)
                      | some (some alternative, p) =>
                        some (some (.ifStatement tok cond consequence (some alternative)), p)
              else
                some (some (.ifStatement tok cond consequence none), p)

/-- Mirrors `parseWhileStatement`. -/
def parseWhileStatement : Nat → Parser → Option (Option Statement × Parser)
  | 0, _ => none
  | fuel + 1, p =>
    let tok := p.currentToken
    let p := pNextToken p
    match parseExpression fuel p with
    | none => none
    | some (none, p) => some (none, p)
    | some (some cond, p) =>
      let (ok, p) := expectPeek p COLON
      if !ok then some (none, addError p "Expected ':' after while condition")
      else
        let (ok, p) := expectPeek p NEWLINE
        if !ok then some (none, p)
        else
          let (ok, p) := expectPeek p INDENT
          if !ok then some (none, p)
          else
            match parseBlockStatement fuel p with
            | none => none
            | some (none, p) => some (none, p)
            | some (some body, p) =>
              some (some (.whileStatement tok cond body), p)

/-- The statement loop of `parseBlockStatement`; the accumulator starts as
Go's nil slice and becomes non-nil on the first append. -/
def parseBlockLoop : Nat → Parser → Option (List Statement) →
    Option (Option (List Statement) × Parser)
  | 0, _, _ => none
  | fuel + 1, p, acc =>
    if p.currentToken.ttype ≠ DEDENT ∧ p.currentToken.ttype ≠ EOF then
      if p.currentToken.ttype = NEWLINE then parseBlockLoop fuel (pNextToken p) acc
      else
        match parseStatement fuel p with
        | none => none
        | some (some stmt, p) => parseBlockLoop fuel p (some (acc.getD [] ++ [stmt]))
        | some (none, p) => parseBlockLoop fuel p acc
    else
      some (acc, p)

/-- Mirrors `parseBlockStatement`. -/
def parseBlockStatement : Nat → Parser → Option (Option (List Statement) × Parser)
  | 0, _ => none
  | fuel + 1, p =>
    if p.currentToken.ttype ≠ INDENT then some (none, p)
    else
      let p := pNextToken p
      match parseBlockLoop fuel p none with
      | none => none
      | some (acc, p) =>
        let p := if p.currentToken.ttype = DEDENT then pNextToken p else p
        some (acc, p)

end

/-- The statement loop of `ParseProgram`: skip newlines, parse a statement,
abort discarding everything when the error list is non-empty or no
statement was produced. -/
def parseProgramLoop : Nat → Parser → List Statement →
    Option (List Statement × Parser)
  | 0, _, _ => none
  | fuel + 1, p, acc =>
    if p.currentToken.ttype = EOF then some (acc, p)
    else if p.currentToken.ttype = NEWLINE then
      parseProgramLoop fuel (pNextToken p) acc
    else
      match parseStatement fuel p with
      | none => none
      | some (stmt?, p1) =>
        if p1.errors ≠ [] then some ([], p1)
        else
          match stmt? with
          | some stmt => parseProgramLoop fuel p1 (acc ++ [stmt])
          | none =>
            some ([], addError p1
              ("Unexpected token " ++ p1.currentToken.ttype
                ++ " (" ++ p1.currentToken.literal ++ ")"))

/-- Mirrors `ParseProgram`, from a fresh parser over a token stream. -/
def parseProgram (fuel : Nat) (toks : List Token) : Option (Program × Parser) :=
  match parseProgramLoop fuel (parserNew toks) [] with
  | none => none
  | some (stmts, p) => some ({ statements := stmts }, p)

/-! ### Claims C5 and C7: error behaviour of ParseProgram -/

theorem pNextToken_errors (p : Parser) : (pNextToken p).errors = p.errors := rfl

/-- Whenever a terminating `ParseProgram` loop run returns with a non-empty
error list, the returned statement list is empty, provided the loop was
entered with no errors recorded (always the case from `New`). -/
theorem parseProgramLoop_discard :
    ∀ (fuel : Nat) (p : Parser) (acc : List Statement) (stmts : List Statement)
      (p' : Parser),
      p.errors = [] →
      parseProgramLoop fuel p acc = some (stmts, p') →
      p'.errors ≠ [] → stmts = [] := by
  intro fuel
  induction fuel with
  | zero =>
    intro p acc stmts p' _ h
    exact absurd h (by simp [parseProgramLoop])
  | succ fuel ih =>
    intro p acc stmts p' hemp h herr
    unfold parseProgramLoop at h
    by_cases hEOF : p.currentToken.ttype = EOF
    · rw [if_pos hEOF] at h
      simp only [Option.some.injEq, Prod.mk.injEq] at h
      obtain ⟨h1, h2⟩ := h
      subst h1
      subst h2
      exact absurd hemp herr
    · rw [if_neg hEOF] at h
      by_cases hNL : p.currentToken.ttype = NEWLINE
      · rw [if_pos hNL] at h
        exact ih (pNextToken p) acc stmts p' hemp h herr
      · rw [if_neg hNL] at h
        rcases hPS : parseStatement fuel p with _ | ⟨stmt?, p1⟩
        · rw [hPS] at h
          exact absurd h (by simp)
        · rw [hPS] at h
          try dsimp only at h
          by_cases herr1 : p1.errors ≠ []
          · rw [if_pos herr1] at h
            simp only [Option.some.injEq, Prod.mk.injEq] at h
            exact h.1.symm
          · rw [if_neg herr1] at h
            push_neg at herr1
            cases stmt? with
            | some stmt =>
              try dsimp only at h
              exact ih p1 (acc ++ [stmt]) stmts p' herr1 h herr
            | none =>
              try dsimp only at h
              simp only [Option.some.injEq, Prod.mk.injEq] at h
              exact h.1.symm

/-- C5 (amended): for every terminating `ParseProgram` run whose error
list is non-empty, the returned `Program` has an empty statement list: all
statements accumulated before the error are discarded. -/
theorem parseProgram_discards_on_error (fuel : Nat) (toks : List Token)
    (prog : Program) (p' : Parser)
    (h : parseProgram fuel toks = some (prog, p'))
    (herr : p'.errors ≠ []) : prog.statements = [] := by
  unfold parseProgram at h
  rcases hL : parseProgramLoop fuel (parserNew toks) [] with _ | ⟨stmts, q⟩
  · rw [hL] at h
    exact absurd h (by simp)
  · rw [hL] at h
    try dsimp only at h
    simp only [Option.some.injEq, Prod.mk.injEq] at h
    obtain ⟨h1, h2⟩ := h
    subst h2
    have hstmts := parseProgramLoop_discard fuel (parserNew toks) [] stmts q rfl hL herr
    rw [← h1]
    exact hstmts

/-- C5: witness for the amended theorem, at the input "print x": one error,
zero statements. -/
theorem parseProgram_discards_on_error_witness :
    ∃ prog p',
      parseProgram 50 (lexer.lexAll 50 "print x".toList) = some (prog, p') ∧
      p'.errors ≠ [] ∧ prog.statements = [] := by
  have hmap : (parseProgram 50 (lexer.lexAll 50 "print x".toList)).map
      (fun r => (r.1.statements.length, r.2.errors))
        = some (0, ["line 1: Expected '(' after print"]) := rfl
  rcases hrun : parseProgram 50 (lexer.lexAll 50 "print x".toList) with _ | ⟨prog, p'⟩
  · rw [hrun] at hmap
    simp at hmap
  · rw [hrun] at hmap
    simp only [Option.map_some', Option.some.injEq, Prod.mk.injEq] at hmap
    refine ⟨prog, p', rfl, ?_, ?_⟩
    · rw [hmap.2]
      decide
    · exact parseProgram_discards_on_error 50 _ prog p' hrun (by rw [hmap.2]; decide)

/-- C5: the counterexample.  On the input "if a:\n\tif b\n\tif c\n" the
parser does not abort at the first detected error: parsing of the indented
block continues past the first malformed statement, a second error is
recorded, and only then does `ParseProgram` abort, returning two errors
(the claim's "appends that error", singular, fails).  The statement list
is still discarded to empty. -/
theorem parseProgram_not_first_error_abort_counterexample :
    (parseProgram 100 (lexer.lexAll 100 "if a:\n\tif b\n\tif c\n".toList)).map
        (fun r => (r.1.statements.length, r.2.errors))
      = some (0, ["line 1: Expected ':' after if condition",
                  "line 1: Expected ':' after if condition"]) := rfl

/-- Every error string the parser ever records carries the constant
"line 1: " prefix (addError hard-codes it). -/
def GoodErrs (l : List String) : Prop := ∀ e ∈ l, ∃ m, e = "line 1: " ++ m

theorem goodErrs_addError {p : Parser} (msg : String) (h : GoodErrs p.errors) :
    GoodErrs (addError p msg).errors := by
  intro e he
  unfold addError at he
  simp only [List.mem_append, List.mem_singleton] at he
  rcases he with he | he
  · exact h e he
  · exact ⟨msg, he⟩

theorem expectPeek_errors (p : Parser) (t : TokenType) :
    ((expectPeek p t).2).errors = p.errors := by
  unfold expectPeek
  split <;> rfl

theorem parseParams_goodErrs :
    ∀ (fuel : Nat) (p : Parser) (acc : List String)
      (r : Option (List String)) (p' : Parser),
      parseParams fuel p acc = some (r, p') → GoodErrs p.errors → GoodErrs p'.errors := by
  intro fuel
  induction fuel with
  | zero =>
    intro p acc r p' h
    exact absurd h (by simp [parseParams])
  | succ fuel ih =>
    intro p acc r p' h hGE
    rw [parseParams] at h
    by_cases c1 : p.currentToken.ttype = RPAREN
    · rw [if_pos c1] at h
      simp only [Option.some.injEq, Prod.mk.injEq] at h
      rw [← h.2]
      exact hGE
    · rw [if_neg c1] at h
      by_cases c2 : p.currentToken.ttype ≠ IDENT
      · rw [if_pos c2] at h
        simp only [Option.some.injEq, Prod.mk.injEq] at h
        rw [← h.2]
        exact goodErrs_addError _ hGE
      · rw [if_neg c2] at h
        try dsimp only at h
        by_cases c3 : (pNextToken p).currentToken.ttype = COMMA
        · rw [if_pos c3] at h
          exact ih _ _ _ _ h hGE
        · rw [if_neg c3] at h
          exact ih _ _ _ _ h hGE

/-- The combined error-format invariant over every parse function: a
terminating call only appends "line 1: "-prefixed errors. -/
theorem parserGoodErrs : ∀ fuel : Nat,
    (∀ p r p', parseStatement fuel p = some (r, p') →
      GoodErrs p.errors → GoodErrs p'.errors) ∧
    (∀ p r p', parseAssignmentStatement fuel p = some (r, p') →
      GoodErrs p.errors → GoodErrs p'.errors) ∧
    (∀ p r p', parseExpressionStatement fuel p = some (r, p') →
      GoodErrs p.errors → GoodErrs p'.errors) ∧
    (∀ p r p', parseReturnStatement fuel p = some (r, p') →
      GoodErrs p.errors → GoodErrs p'.errors) ∧
    (∀ p r p', parseFunctionDefinition fuel p = some (r, p') →
      GoodErrs p.errors → GoodErrs p'.errors) ∧
    (∀ p r p', parseExpression fuel p = some (r, p') →
      GoodErrs p.errors → GoodErrs p'.errors) ∧
    (∀ e p r p', parseExpressionRest fuel e p = some (r, p') →
      GoodErrs p.errors → GoodErrs p'.errors) ∧
    (∀ p r p', parseFunctionCall fuel p = some (r, p') →
      GoodErrs p.errors → GoodErrs p'.errors) ∧
    (∀ tok fn args p r p', parseCallArgs fuel tok fn args p = some (r, p') →
      GoodErrs p.errors → GoodErrs p'.errors) ∧
    (∀ p r p', parseGroupedExpression fuel p = some (r, p') →
      GoodErrs p.errors → GoodErrs p'.errors) ∧
    (∀ p r p', parsePrintStatement fuel p = some (r, p') →
      GoodErrs p.errors → GoodErrs p'.errors) ∧
    (∀ p r p', parseIfStatement fuel p = some (r, p') →
      GoodErrs p.errors → GoodErrs p'.errors) ∧
    (∀ p r p', parseWhileStatement fuel p = some (r, p') →
      GoodErrs p.errors → GoodErrs p'.errors) ∧
    (∀ p acc r p', parseBlockLoop fuel p acc = some (r, p') →
      GoodErrs p.errors → GoodErrs p'.errors) ∧
    (∀ p r p', parseBlockStatement fuel p = some (r, p') →
      GoodErrs p.errors → GoodErrs p'.errors) := by
  intro fuel
  induction fuel with
  | zero =>
    refine ⟨?_, ?_, ?_, ?_, ?_, ?_, ?_, ?_, ?_, ?_, ?_, ?_, ?_, ?_, ?_⟩
    all_goals intros
    all_goals rename_i h hGE
    all_goals exact nomatch h
  | succ fuel ih =>
    obtain ⟨ihStmt, ihAssign, ihExprStmt, ihReturn, ihFnDef, ihExpr, ihExprRest,
      ihCall, ihCallArgs, ihGrouped, ihPrint, ihIf, ihWhile, ihBlockLoop, ihBlock⟩ := ih
    refine ⟨?_, ?_, ?_, ?_, ?_, ?_, ?_, ?_, ?_, ?_, ?_, ?_, ?_, ?_, ?_⟩
    · -- parseStatement
      intro p r p' h hGE
      rw [parseStatement] at h
      by_cases c1 : p.currentToken.ttype = PRINT
      · rw [if_pos c1] at h; exact ihPrint _ _ _ h hGE
      rw [if_neg c1] at h
      by_cases c2 : p.currentToken.ttype = IF
      · rw [if_pos c2] at h; exact ihIf _ _ _ h hGE
      rw [if_neg c2] at h
      by_cases c3 : p.currentToken.ttype = WHILE
      · rw [if_pos c3] at h; exact ihWhile _ _ _ h hGE
      rw [if_neg c3] at h
      by_cases c4 : p.currentToken.ttype = DEF
      · rw [if_pos c4] at h; exact ihFnDef _ _ _ h hGE
      rw [if_neg c4] at h
      by_cases c5 : p.currentToken.ttype = RETURN
      · rw [if_pos c5] at h; exact ihReturn _ _ _ h hGE
      rw [if_neg c5] at h
      by_cases c6 : p.currentToken.ttype = IDENT
      · rw [if_pos c6] at h
        by_cases c7 : p.peekToken.ttype = ASSIGN
        · rw [if_pos c7] at h; exact ihAssign _ _ _ h hGE
        · rw [if_neg c7] at h; exact ihExprStmt _ _ _ h hGE
      · rw [if_neg c6] at h
        simp only [Option.some.injEq, Prod.mk.injEq] at h
        rw [← h.2]
        exact hGE
    · -- parseAssignmentStatement
      intro p r p' h hGE
      rw [parseAssignmentStatement] at h
      try dsimp only at h
      by_cases c1 : (pNextToken p).currentToken.ttype ≠ ASSIGN
      · rw [if_pos c1] at h
        simp only [Option.some.injEq, Prod.mk.injEq] at h
        rw [← h.2]
        exact goodErrs_addError _ hGE
      · rw [if_neg c1] at h
        rcases hE : parseExpression fuel (pNextToken (pNextToken p)) with _ | ⟨v?, p2⟩
        · rw [hE] at h; simp at h
        · rw [hE] at h
          have hGE2 : GoodErrs p2.errors := ihExpr _ _ _ hE hGE
          cases v? with
          | none =>
            simp only [Option.some.injEq, Prod.mk.injEq] at h
            rw [← h.2]
            exact hGE2
          | some v =>
            simp only [Option.some.injEq, Prod.mk.injEq] at h
            rw [← h.2]
            exact hGE2
    · -- parseExpressionStatement
      intro p r p' h hGE
      rw [parseExpressionStatement] at h
      rcases hE : parseExpression fuel p with _ | ⟨v?, p2⟩
      · rw [hE] at h; simp at h
      · rw [hE] at h
        have hGE2 : GoodErrs p2.errors := ihExpr _ _ _ hE hGE
        cases v? with
        | none =>
          simp only [Option.some.injEq, Prod.mk.injEq] at h
          rw [← h.2]
          exact hGE2
        | some v =>
          simp only [Option.some.injEq, Prod.mk.injEq] at h
          rw [← h.2]
          split <;> exact hGE2
    · -- parseReturnStatement
      intro p r p' h hGE
      rw [parseReturnStatement] at h
      try dsimp only at h
      rcases hE : parseExpression fuel (pNextToken p) with _ | ⟨v?, p2⟩
      · rw [hE] at h; simp at h
      · rw [hE] at h
        have hGE2 : GoodErrs p2.errors := ihExpr _ _ _ hE hGE
        cases v? with
        | none =>
          simp only [Option.some.injEq, Prod.mk.injEq] at h
          rw [← h.2]
          exact hGE2
        | some v =>
          simp only [Option.some.injEq, Prod.mk.injEq] at h
          rw [← h.2]
          split <;> exact hGE2
    · -- parseFunctionDefinition
      intro p r p' h hGE
      rw [parseFunctionDefinition] at h
      try dsimp only at h
      by_cases c1 : p.peekToken.ttype ≠ IDENT
      · rw [if_pos c1] at h
        simp only [Option.some.injEq, Prod.mk.injEq] at h
        rw [← h.2]
        exact goodErrs_addError _ hGE
      rw [if_neg c1] at h
      by_cases c2 : (pNextToken p).peekToken.ttype ≠ LPAREN
      · rw [if_pos c2] at h
        simp only [Option.some.injEq, Prod.mk.injEq] at h
        rw [← h.2]
        exact goodErrs_addError _ hGE
      rw [if_neg c2] at h
      rcases hP : parseParams fuel (pNextToken (pNextToken (pNextToken p))) []
        with _ | ⟨ps?, p2⟩
      · rw [hP] at h; simp at h
      rw [hP] at h
      have hGE2 : GoodErrs p2.errors := parseParams_goodErrs fuel _ _ _ _ hP hGE
      cases ps? with
      | none =>
        simp only [Option.some.injEq, Prod.mk.injEq] at h
        rw [← h.2]
        exact hGE2
      | some params =>
        try dsimp only at h
        by_cases c3 : p2.peekToken.ttype ≠ COLON
        · rw [if_pos c3] at h
          simp only [Option.some.injEq, Prod.mk.injEq] at h
          rw [← h.2]
          exact goodErrs_addError _ hGE2
        rw [if_neg c3] at h
        try dsimp only at h
        by_cases c4 : (pNextToken p2).peekToken.ttype ≠ NEWLINE
        · rw [if_pos c4] at h
          simp only [Option.some.injEq, Prod.mk.injEq] at h
          rw [← h.2]
          exact goodErrs_addError _ hGE2
        rw [if_neg c4] at h
        rcases hB : parseBlockStatement fuel (pNextToken (pNextToken (pNextToken p2)))
          with _ | ⟨b?, p3⟩
        · rw [hB] at h; simp at h
        rw [hB] at h
        have hGE3 : GoodErrs p3.errors := ihBlock _ _ _ hB hGE2
        cases b? with
        | none =>
          simp only [Option.some.injEq, Prod.mk.injEq] at h
          rw [← h.2]
          exact hGE3
        | some body =>
          simp only [Option.some.injEq, Prod.mk.injEq] at h
          rw [← h.2]
          exact hGE3
    · -- parseExpression
      intro p r p' h hGE
      rw [parseExpression] at h
      by_cases c1 : p.currentToken.ttype = LPAREN
      · rw [if_pos c1] at h; exact ihGrouped _ _ _ h hGE
      rw [if_neg c1] at h
      by_cases c2 : p.currentToken.ttype = IDENT ∧ p.peekToken.ttype = LPAREN
      · rw [if_pos c2] at h; exact ihCall _ _ _ h hGE
      rw [if_neg c2] at h
      by_cases c3 : p.currentToken.ttype = IDENT
      · rw [if_pos c3] at h; exact ihExprRest _ _ _ _ h hGE
      rw [if_neg c3] at h
      by_cases c4 : p.currentToken.ttype = INT
      · rw [if_pos c4] at h; exact ihExprRest _ _ _ _ h hGE
      rw [if_neg c4] at h
      by_cases c5 : p.currentToken.ttype = STRING
      · rw [if_pos c5] at h; exact ihExprRest _ _ _ _ h hGE
      rw [if_neg c5] at h
      by_cases c6 : p.currentToken.ttype = EOF
      · rw [if_pos c6] at h
        simp only [Option.some.injEq, Prod.mk.injEq] at h
        rw [← h.2]
        exact goodErrs_addError _ hGE
      · rw [if_neg c6] at h
        simp only [Option.some.injEq, Prod.mk.injEq] at h
        rw [← h.2]
        exact hGE
    · -- parseExpressionRest
      intro e p r p' h hGE
      rw [parseExpressionRest] at h
      by_cases c1 : p.peekToken.ttype = PLUS ∨ p.peekToken.ttype = ASTERISK ∨
          p.peekToken.ttype = GT ∨ p.peekToken.ttype = token.LT
      · rw [if_pos c1] at h
        try dsimp only at h
        rcases hE : parseExpression fuel (pNextToken (pNextToken p)) with _ | ⟨v?, p2⟩
        · rw [hE] at h; simp at h
        · rw [hE] at h
          have hGE2 : GoodErrs p2.errors := ihExpr _ _ _ hE hGE
          cases v? with
          | none =>
            simp only [Option.some.injEq, Prod.mk.injEq] at h
            rw [← h.2]
            exact hGE2
          | some v =>
            simp only [Option.some.injEq, Prod.mk.injEq] at h
            rw [← h.2]
            exact hGE2
      · rw [if_neg c1] at h
        simp only [Option.some.injEq, Prod.mk.injEq] at h
        rw [← h.2]
        split <;> exact hGE
    · -- parseFunctionCall
      intro p r p' h hGE
      rw [parseFunctionCall] at h
      exact ihCallArgs _ _ _ _ _ _ h hGE
    · -- parseCallArgs
      intro tok fn args p r p' h hGE
      rw [parseCallArgs] at h
      by_cases c1 : p.currentToken.ttype = RPAREN
      · rw [if_pos c1] at h
        simp only [Option.some.injEq, Prod.mk.injEq] at h
        rw [← h.2]
        exact hGE
      · rw [if_neg c1] at h
        rcases hE : parseExpression fuel p with _ | ⟨a?, p2⟩
        · rw [hE] at h; simp at h
        rw [hE] at h
        have hGE2 : GoodErrs p2.errors := ihExpr _ _ _ hE hGE
        cases a? with
        | none =>
          simp only [Option.some.injEq, Prod.mk.injEq] at h
          rw [← h.2]
          exact hGE2
        | some a =>
          try dsimp only at h
          by_cases c2 : (pNextToken p2).currentToken.ttype = COMMA
          · rw [if_pos c2] at h
            exact ihCallArgs _ _ _ _ _ _ h hGE2
          rw [if_neg c2] at h
          by_cases c3 : (pNextToken p2).currentToken.ttype ≠ RPAREN
          · rw [if_pos c3] at h
            simp only [Option.some.injEq, Prod.mk.injEq] at h
            rw [← h.2]
            exact goodErrs_addError _ hGE2
          · rw [if_neg c3] at h
            exact ihCallArgs _ _ _ _ _ _ h hGE2
    · -- parseGroupedExpression
      intro p r p' h hGE
      rw [parseGroupedExpression] at h
      try dsimp only at h
      rcases hE : parseExpression fuel (pNextToken p) with _ | ⟨v?, p2⟩
      · rw [hE] at h; simp at h
      rw [hE] at h
      have hGE2 : GoodErrs p2.errors := ihExpr _ _ _ hE hGE
      cases v? with
      | none =>
        simp only [Option.some.injEq, Prod.mk.injEq] at h
        rw [← h.2]
        exact hGE2
      | some v =>
        try dsimp only at h
        rcases hEP : expectPeek p2 RPAREN with ⟨ok, p3⟩
        rw [hEP] at h
        have hGE3 : GoodErrs p3.errors := by
          have hee := expectPeek_errors p2 RPAREN
          rw [hEP] at hee
          rw [hee]
          exact hGE2
        try dsimp only at h
        cases ok with
        | false =>
          try simp only [Bool.not_false] at h
          first
          | rw [if_pos trivial] at h
          | rw [if_pos rfl] at h
          simp only [Option.some.injEq, Prod.mk.injEq] at h
          rw [← h.2]
          exact goodErrs_addError _ hGE3
        | true =>
          try simp only [Bool.not_true] at h
          first
          | rw [if_neg not_false] at h
          | rw [if_neg Bool.false_ne_true] at h
          simp only [Option.some.injEq, Prod.mk.injEq] at h
          rw [← h.2]
          exact hGE3
    · -- parsePrintStatement
      intro p r p' h hGE
      rw [parsePrintStatement] at h
      try dsimp only at h
      by_cases c1 : p.peekToken.ttype ≠ LPAREN
      · rw [if_pos c1] at h
        simp only [Option.some.injEq, Prod.mk.injEq] at h
        rw [← h.2]
        exact goodErrs_addError _ hGE
      rw [if_neg c1] at h
      rcases hE : parseExpression fuel (pNextToken (pNextToken p)) with _ | ⟨v?, p2⟩
      · rw [hE] at h; simp at h
      rw [hE] at h
      have hGE2 : GoodErrs p2.errors := ihExpr _ _ _ hE hGE
      cases v? with
      | none =>
        simp only [Option.some.injEq, Prod.mk.injEq] at h
        rw [← h.2]
        exact hGE2
      | some v =>
        try dsimp only at h
        by_cases c2 : p2.peekToken.ttype ≠ RPAREN
        · rw [if_pos c2] at h
          simp only [Option.some.injEq, Prod.mk.injEq] at h
          rw [← h.2]
          exact goodErrs_addError _ hGE2
        · rw [if_neg c2] at h
          simp only [Option.some.injEq, Prod.mk.injEq] at h
          rw [← h.2]
          exact hGE2
    · -- parseIfStatement
      intro p r p' h hGE
      rw [parseIfStatement] at h
      try dsimp only at h
      rcases hE : parseExpression fuel (pNextToken p) with _ | ⟨v?, p2⟩
      · rw [hE] at h; simp at h
      rw [hE] at h
      have hGE2 : GoodErrs p2.errors := ihExpr _ _ _ hE hGE
      cases v? with
      | none =>
        simp only [Option.some.injEq, Prod.mk.injEq] at h
        rw [← h.2]
        exact hGE2
      | some cond =>
        try dsimp only at h
        rcases hEP1 : expectPeek p2 COLON with ⟨ok1, p3⟩
        rw [hEP1] at h
        have hGE3 : GoodErrs p3.errors := by
          have hee := expectPeek_errors p2 COLON
          rw [hEP1] at hee
          rw [hee]
          exact hGE2
        try dsimp only at h
        cases ok1 with
        | false =>
          try simp only [Bool.not_false] at h
          first
          | rw [if_pos trivial] at h
          | rw [if_pos rfl] at h
          simp only [Option.some.injEq, Prod.mk.injEq] at h
          rw [← h.2]
          exact goodErrs_addError _ hGE3
        | true =>
          try simp only [Bool.not_true] at h
          first
          | rw [if_neg not_false] at h
          | rw [if_neg Bool.false_ne_true] at h
          rcases hEP2 : expectPeek p3 NEWLINE with ⟨ok2, p4⟩
          rw [hEP2] at h
          have hGE4 : GoodErrs p4.errors := by
            have hee := expectPeek_errors p3 NEWLINE
            rw [hEP2] at hee
            rw [hee]
            exact hGE3
          try dsimp only at h
          cases ok2 with
          | false =>
            try simp only [Bool.not_false] at h
            first
            | rw [if_pos trivial] at h
            | rw [if_pos rfl] at h
            simp only [Option.some.injEq, Prod.mk.injEq] at h
            rw [← h.2]
            exact hGE4
          | true =>
            try simp only [Bool.not_true] at h
            first
            | rw [if_neg not_false] at h
            | rw [if_neg Bool.false_ne_true] at h
            rcases hEP3 : expectPeek p4 INDENT with ⟨ok3, p5⟩
            rw [hEP3] at h
            have hGE5 : GoodErrs p5.errors := by
              have hee := expectPeek_errors p4 INDENT
              rw [hEP3] at hee
              rw [hee]
              exact hGE4
            try dsimp only at h
            cases ok3 with
            | false =>
              try simp only [Bool.not_false] at h
              first
              | rw [if_pos trivial] at h
              | rw [if_pos rfl] at h
              simp only [Option.some.injEq, Prod.mk.injEq] at h
              rw [← h.2]
              exact hGE5
            | true =>
              try simp only [Bool.not_true] at h
              first
              | rw [if_neg not_false] at h
              | rw [if_neg Bool.false_ne_true] at h
              rcases hB : parseBlockStatement fuel p5 with _ | ⟨b?, p6⟩
              · rw [hB] at h; simp at h
              rw [hB] at h
              have hGE6 : GoodErrs p6.errors := ihBlock _ _ _ hB hGE5
              cases b? with
              | none =>
                simp only [Option.some.injEq, Prod.mk.injEq] at h
                rw [← h.2]
                exact hGE6
              | some consequence =>
                try dsimp only at h
                by_cases cElse : p6.currentToken.ttype = ELSE
                · rw [if_pos cElse] at h
                  rcases hEP4 : expectPeek p6 COLON with ⟨ok4, p7⟩
                  rw [hEP4] at h
                  have hGE7 : GoodErrs p7.errors := by
                    have hee := expectPeek_errors p6 COLON
                    rw [hEP4] at hee
                    rw [hee]
                    exact hGE6
                  try dsimp only at h
                  cases ok4 with
                  | false =>
                    try simp only [Bool.not_false] at h
                    first
                    | rw [if_pos trivial] at h
                    | rw [if_pos rfl] at h
                    simp only [Option.some.injEq, Prod.mk.injEq] at h
                    rw [← h.2]
                    exact hGE7
                  | true =>
                    try simp only [Bool.not_true] at h
                    first
                    | rw [if_neg not_false] at h
                    | rw [if_neg Bool.false_ne_true] at h
                    rcases hEP5 : expectPeek p7 NEWLINE with ⟨ok5, p8⟩
                    rw [hEP5] at h
                    have hGE8 : GoodErrs p8.errors := by
                      have hee := expectPeek_errors p7 NEWLINE
                      rw [hEP5] at hee
                      rw [hee]
                      exact hGE7
                    try dsimp only at h
                    cases ok5 with
                    | false =>
                      try simp only [Bool.not_false] at h
                      first
                      | rw [if_pos trivial] at h
                      | rw [if_pos rfl] at h
                      simp only [Option.some.injEq, Prod.mk.injEq] at h
                      rw [← h.2]
                      exact hGE8
                    | true =>
                      try simp only [Bool.not_true] at h
                      first
                      | rw [if_neg not_false] at h
                      | rw [if_neg Bool.false_ne_true] at h
                      rcases hEP6 : expectPeek p8 INDENT with ⟨ok6, p9⟩
                      rw [hEP6] at h
                      have hGE9 : GoodErrs p9.errors := by
                        have hee := expectPeek_errors p8 INDENT
                        rw [hEP6] at hee
                        rw [hee]
                        exact hGE8
                      try dsimp only at h
                      cases ok6 with
                      | false =>
                        try simp only [Bool.not_false] at h
                        first
                        | rw [if_pos trivial] at h
                        | rw [if_pos rfl] at h
                        simp only [Option.some.injEq, Prod.mk.injEq] at h
                        rw [← h.2]
                        exact hGE9
                      | true =>
                        try simp only [Bool.not_true] at h
                        first
                        | rw [if_neg not_false] at h
                        | rw [if_neg Bool.false_ne_true] at h
                        rcases hB2 : parseBlockStatement fuel p9 with _ | ⟨b2?, p10⟩
                        · rw [hB2] at h; simp at h
                        rw [hB2] at h
                        have hGE10 : GoodErrs p10.errors := ihBlock _ _ _ hB2 hGE9
                        cases b2? with
                        | none =>
                          simp only [Option.some.injEq, Prod.mk.injEq] at h
                          rw [← h.2]
                          exact hGE10
                        | some alternative =>
                          simp only [Option.some.injEq, Prod.mk.injEq] at h
                          rw [← h.2]
                          exact hGE10
                · rw [if_neg cElse] at h
                  simp only [Option.some.injEq, Prod.mk.injEq] at h
                  rw [← h.2]
                  exact hGE6
    · -- parseWhileStatement
      intro p r p' h hGE
      rw [parseWhileStatement] at h
      try dsimp only at h
      rcases hE : parseExpression fuel (pNextToken p) with _ | ⟨v?, p2⟩
      · rw [hE] at h; simp at h
      rw [hE] at h
      have hGE2 : GoodErrs p2.errors := ihExpr _ _ _ hE hGE
      cases v? with
      | none =>
        simp only [Option.some.injEq, Prod.mk.injEq] at h
        rw [← h.2]
        exact hGE2
      | some cond =>
        try dsimp only at h
        rcases hEP1 : expectPeek p2 COLON with ⟨ok1, p3⟩
        rw [hEP1] at h
        have hGE3 : GoodErrs p3.errors := by
          have hee := expectPeek_errors p2 COLON
          rw [hEP1] at hee
          rw [hee]
          exact hGE2
        try dsimp only at h
        cases ok1 with
        | false =>
          try simp only [Bool.not_false] at h
          first
          | rw [if_pos trivial] at h
          | rw [if_pos rfl] at h
          simp only [Option.some.injEq, Prod.mk.injEq] at h
          rw [← h.2]
          exact goodErrs_addError _ hGE3
        | true =>
          try simp only [Bool.not_true] at h
          first
          | rw [if_neg not_false] at h
          | rw [if_neg Bool.false_ne_true] at h
          rcases hEP2 : expectPeek p3 NEWLINE with ⟨ok2, p4⟩
          rw [hEP2] at h
          have hGE4 : GoodErrs p4.errors := by
            have hee := expectPeek_errors p3 NEWLINE
            rw [hEP2] at hee
            rw [hee]
            exact hGE3
          try dsimp only at h
          cases ok2 with
          | false =>
            try simp only [Bool.not_false] at h
            first
            | rw [if_pos trivial] at h
            | rw [if_pos rfl] at h
            simp only [Option.some.injEq, Prod.mk.injEq] at h
            rw [← h.2]
            exact hGE4
          | true =>
            try simp only [Bool.not_true] at h
            first
            | rw [if_neg not_false] at h
            | rw [if_neg Bool.false_ne_true] at h
            rcases hEP3 : expectPeek p4 INDENT with ⟨ok3, p5⟩
            rw [hEP3] at h
            have hGE5 : GoodErrs p5.errors := by
              have hee := expectPeek_errors p4 INDENT
              rw [hEP3] at hee
              rw [hee]
              exact hGE4
            try dsimp only at h
            cases ok3 with
            | false =>
              try simp only [Bool.not_false] at h
              first
              | rw [if_pos trivial] at h
              | rw [if_pos rfl] at h
              simp only [Option.some.injEq, Prod.mk.injEq] at h
              rw [← h.2]
              exact hGE5
            | true =>
              try simp only [Bool.not_true] at h
              first
              | rw [if_neg not_false] at h
              | rw [if_neg Bool.false_ne_true] at h
              rcases hB : parseBlockStatement fuel p5 with _ | ⟨b?, p6⟩
              · rw [hB] at h; simp at h
              rw [hB] at h
              have hGE6 : GoodErrs p6.errors := ihBlock _ _ _ hB hGE5
              cases b? with
              | none =>
                simp only [Option.some.injEq, Prod.mk.injEq] at h
                rw [← h.2]
                exact hGE6
              | some body =>
                simp only [Option.some.injEq, Prod.mk.injEq] at h
                rw [← h.2]
                exact hGE6
    · -- parseBlockLoop
      intro p acc r p' h hGE
      rw [parseBlockLoop] at h
      by_cases c1 : p.currentToken.ttype ≠ DEDENT ∧ p.currentToken.ttype ≠ EOF
      · rw [if_pos c1] at h
        by_cases c2 : p.currentToken.ttype = NEWLINE
        · rw [if_pos c2] at h
          exact ihBlockLoop _ _ _ _ h hGE
        · rw [if_neg c2] at h
          rcases hS : parseStatement fuel p with _ | ⟨s?, p2⟩
          · rw [hS] at h; simp at h
          rw [hS] at h
          have hGE2 : GoodErrs p2.errors := ihStmt _ _ _ hS hGE
          cases s? with
          | some stmt =>
            try dsimp only at h
            exact ihBlockLoop _ _ _ _ h hGE2
          | none =>
            try dsimp only at h
            exact ihBlockLoop _ _ _ _ h hGE2
      · rw [if_neg c1] at h
        simp only [Option.some.injEq, Prod.mk.injEq] at h
        rw [← h.2]
        exact hGE
    · -- parseBlockStatement
      intro p r p' h hGE
      rw [parseBlockStatement] at h
      by_cases c1 : p.currentToken.ttype ≠ INDENT
      · rw [if_pos c1] at h
        simp only [Option.some.injEq, Prod.mk.injEq] at h
        rw [← h.2]
        exact hGE
      · rw [if_neg c1] at h
        try dsimp only at h
        rcases hL : parseBlockLoop fuel (pNextToken p) none with _ | ⟨acc, p2⟩
        · rw [hL] at h; simp at h
        rw [hL] at h
        have hGE2 : GoodErrs p2.errors := ihBlockLoop _ _ _ _ hL hGE
        simp only [Option.some.injEq, Prod.mk.injEq] at h
        rw [← h.2]
        split <;> exact hGE2


/-- The `ParseProgram` loop preserves the "line 1: " error-format invariant. -/
theorem parseProgramLoop_goodErrs : ∀ fuel p acc stmts p',
    parseProgramLoop fuel p acc = some (stmts, p') →
    GoodErrs p.errors → GoodErrs p'.errors := by
  intro fuel
  induction fuel with
  | zero => intro p acc stmts p' h; exact nomatch h
  | succ fuel ih =>
    intro p acc stmts p' h hGE
    rw [parseProgramLoop] at h
    by_cases c1 : p.currentToken.ttype = EOF
    · rw [if_pos c1] at h
      simp only [Option.some.injEq, Prod.mk.injEq] at h
      rw [← h.2]
      exact hGE
    rw [if_neg c1] at h
    by_cases c2 : p.currentToken.ttype = NEWLINE
    · rw [if_pos c2] at h
      exact ih _ _ _ _ h hGE
    rw [if_neg c2] at h
    rcases hS : parseStatement fuel p with _ | ⟨stmt?, p1⟩
    · rw [hS] at h; simp at h
    rw [hS] at h
    try dsimp only at h
    have hGE1 : GoodErrs p1.errors := (parserGoodErrs fuel).1 _ _ _ hS hGE
    by_cases c3 : p1.errors ≠ []
    · rw [if_pos c3] at h
      simp only [Option.some.injEq, Prod.mk.injEq] at h
      rw [← h.2]
      exact hGE1
    · rw [if_neg c3] at h
      cases stmt? with
      | some stmt =>
        try dsimp only at h
        exact ih _ _ _ _ h hGE1
      | none =>
        try dsimp only at h
        simp only [Option.some.injEq, Prod.mk.injEq] at h
        rw [← h.2]
        exact goodErrs_addError _ hGE1

/-- C7, amended: every error string recorded by a terminating run of
`ParseProgram` is of the form "line 1: message" with the line number
hard-coded to 1, whatever the source line of the offending token
(`addError` formats with the constant `"line 1: %s"`). -/
theorem parser_errors_line1 (fuel : Nat) (toks : List Token)
    (prog : Program) (p' : Parser)
    (h : parseProgram fuel toks = some (prog, p')) :
    ∀ e ∈ p'.errors, ∃ m, e = "line 1: " ++ m := by
  unfold parseProgram at h
  rcases hL : parseProgramLoop fuel (parserNew toks) [] with _ | ⟨stmts, q⟩
  · rw [hL] at h
    simp at h
  · rw [hL] at h
    simp only [Option.some.injEq, Prod.mk.injEq] at h
    have hq : GoodErrs q.errors := by
      refine parseProgramLoop_goodErrs fuel (parserNew toks) [] stmts q hL ?_
      intro e he
      exact nomatch he
    rw [← h.2]
    exact hq

/-- C7: witness for the amended theorem on the input "print 5": the single
recorded error carries the "line 1: " prefix. -/
theorem parser_errors_line1_witness :
    ∃ prog p' e,
      parseProgram 50 (lexer.lexAll 50 "print 5".toList) = some (prog, p') ∧
      e ∈ p'.errors ∧ ∃ m, e = "line 1: " ++ m := by
  have hmap : (parseProgram 50 (lexer.lexAll 50 "print 5".toList)).map
      (fun r => r.2.errors) = some ["line 1: Expected '(' after print"] := rfl
  rcases hrun : parseProgram 50 (lexer.lexAll 50 "print 5".toList) with _ | ⟨prog, p'⟩
  · rw [hrun] at hmap
    simp at hmap
  · rw [hrun] at hmap
    simp only [Option.map_some', Option.some.injEq] at hmap
    have hmem : "line 1: Expected '(' after print" ∈ p'.errors := by
      rw [hmap]
      exact List.mem_singleton.mpr rfl
    exact ⟨prog, p', _, rfl, hmem,
      parser_errors_line1 50 _ prog p' hrun _ hmem⟩

/-- C7: the counterexample.  On "x = 5\nprint 5\n" the offending PRINT
token sits on source line 2 (second conjunct), yet the recorded error
message says "line 1": the error format does not use the token's 1-based
line number. -/
theorem parser_line_number_counterexample :
    (parseProgram 100 (lexer.lexAll 100 "x = 5\nprint 5\n".toList)).map
        (fun r => r.2.errors) = some ["line 1: Expected '(' after print"] ∧
    ((lexer.lexAll 100 "x = 5\nprint 5\n".toList).filter
        (fun t => t.ttype = PRINT)).map Token.line = [2] := ⟨rfl, rfl⟩


end parser

/-! ## The symbol package (src/unnamed/part_001)

Association lists stand in for Go maps (`map[string]*Symbol`): insertion
replaces an existing key in place or appends, so the key set and size
agree with the Go map at every step.  The parent-pointer chain of
`SymbolTable` is flattened into the current scope plus the list of
enclosing scopes; a nil parent corresponds to an empty `rest`. -/

namespace symbol

abbrev SymbolType := String

def IntegerType : SymbolType := "INTEGER"
def StringType : SymbolType := "STRING"
def FunctionType : SymbolType := "FUNCTION"
def BooleanType : SymbolType := "BOOLEAN"
def VoidType : SymbolType := "VOID"

/-- Mirrors `symbol.Symbol`. -/
structure Symbol where
  name : String
  symType : SymbolType
  address : Int
  isGlobal : Bool
  funcParams : List String
  isTemp : Bool
  isPrint : Bool
  scope : String
deriving Repr, DecidableEq

/-- One `symbols` map plus the per-table bookkeeping of `SymbolTable`. -/
structure Scope where
  symbols : List (String × Symbol)
  scopeName : String
  nextOffset : Int
deriving Repr, DecidableEq

/-- The `SymbolTable` pointer chain: `top` is the table itself, `rest`
the chain of parents (empty iff the Go `parent` field is nil). -/
structure SymbolTable where
  top : Scope
  rest : List Scope
deriving Repr, DecidableEq

/-- Go map assignment `m[k] = v`: replace in place or append. -/
def mapInsert (l : List (String × Symbol)) (k : String) (v : Symbol) :
    List (String × Symbol) :=
  if l.any (fun p => p.1 = k) then
    l.map (fun p => if p.1 = k then (k, v) else p)
  else l ++ [(k, v)]

/-- Mirrors `DefinePrint`. -/
def DefinePrint (st : SymbolTable) : Symbol × SymbolTable :=
  let sym : Symbol :=
    { name := "print", symType := FunctionType, address := 0, isGlobal := true,
      funcParams := [], isTemp := false, isPrint := true, scope := "" }
  (sym, { st with top := { st.top with symbols := mapInsert st.top.symbols "print" sym } })

/-- Mirrors `NewSymbolTable`: fresh table over the given parent; the
builtin print symbol is installed only in the global (parentless) scope. -/
def NewSymbolTable (parent : Option SymbolTable) : SymbolTable :=
  let st : SymbolTable :=
    { top := { symbols := [], scopeName := "", nextOffset := 0 },
      rest := match parent with
        | none => []
        | some p => p.top :: p.rest }
  match parent with
  | none => (DefinePrint st).2
  | some _ => st

/-- Mirrors `Define`: overwrite-or-insert in the table's own map,
advancing the offset; the symbol is global iff the table has no parent. -/
def Define (st : SymbolTable) (name : String) (symType : SymbolType) :
    Symbol × SymbolTable :=
  let sym : Symbol :=
    { name := name, symType := symType, address := st.top.nextOffset,
      isGlobal := st.rest.isEmpty, funcParams := [], isTemp := false,
      isPrint := false, scope := st.top.scopeName }
  (sym, { st with top := { symbols := mapInsert st.top.symbols name sym,
                           scopeName := st.top.scopeName,
                           nextOffset := st.top.nextOffset + 4 } })

/-- Map lookup in one scope. -/
def scopeLookup (l : List (String × Symbol)) (name : String) : Option Symbol :=
  match l with
  | [] => none
  | (k, v) :: rest => if k = name then some v else scopeLookup rest name

/-- The parent-chain walk of `Lookup`. -/
def lookupScopes : List Scope → String → Option Symbol
  | [], _ => none
  | sc :: rest, name =>
    match scopeLookup sc.symbols name with
    | some s => some s
    | none => lookupScopes rest name

/-- Mirrors `Lookup`: own map first, then the parent chain. -/
def Lookup (st : SymbolTable) (name : String) : Option Symbol :=
  lookupScopes (st.top :: st.rest) name

/-- Mirrors `GetSymbols`: the values of the table's own map (one valid
iteration order of the Go map - here, insertion order). -/
def GetSymbols (st : SymbolTable) : List Symbol :=
  st.top.symbols.map (fun p => p.2)

end symbol

/-! ## The codegen package (src/packages/codegen/codegen.go and control.go)

`ast.Node` is the Go interface over programs, statements and
expressions.  `strings.Builder` output is kept as the list of chunks
passed to `WriteString` (the final assembly is their concatenation);
`map[int]bool` register state is an association list defaulting to
false; functions that can reach Go `panic` (register exhaustion) or
unbounded recursion return `Option`, with `none` for the aborted run,
and the source's convention of returning the register number or -1
is kept as `Int`. -/

namespace ast

/-- The `ast.Node` interface: the concrete node kinds the code
generator switches over. -/
inductive Node where
  | program (p : Program)
  | statement (s : Statement)
  | expression (e : Expression)
deriving Repr

end ast

namespace codegen

open token

/-- Mirrors `CodeGenerator`. -/
structure CodeGenerator where
  symbolTable : symbol.SymbolTable
  output : List String
  labelCount : Int
  nextReg : Int
  usedRegs : List (Int × Bool)
  stringLiterals : List String
  currentFunction : String
  currentParams : List String
deriving Repr

/-- Mirrors `New`: zero-valued generator around the given table. -/
def New (symTable : symbol.SymbolTable) : CodeGenerator :=
  { symbolTable := symTable, output := [], labelCount := 0, nextReg := 0,
    usedRegs := [], stringLiterals := [], currentFunction := "",
    currentParams := [] }

/-- One `WriteString` call. -/
def out (g : CodeGenerator) (s : String) : CodeGenerator :=
  { g with output := g.output ++ [s] }

/-- A run of consecutive `WriteString` calls. -/
def outs (g : CodeGenerator) (l : List String) : CodeGenerator :=
  l.foldl out g

/-- `g.usedRegs[i]` (Go map read, default false). -/
def mapGetB (l : List (Int × Bool)) (k : Int) : Bool :=
  match l with
  | [] => false
  | (k_, v) :: rest => if k_ = k then v else mapGetB rest k

/-- `g.usedRegs[i] = v` (Go map write). -/
def mapSetB (l : List (Int × Bool)) (k : Int) (v : Bool) : List (Int × Bool) :=
  if l.any (fun p => p.1 = k) then
    l.map (fun p => if p.1 = k then (k, v) else p)
  else l ++ [(k, v)]

/-- Mirrors `getNextLabel`. -/
def getNextLabel (g : CodeGenerator) : String × CodeGenerator :=
  let g := { g with labelCount := g.labelCount + 1 }
  ("L" ++ toString g.labelCount, g)

/-- Mirrors `addStringLiteral`: dedup by content, else append. -/
def addStringLiteral (g : CodeGenerator) (s : String) : String × CodeGenerator :=
  match g.stringLiterals.findIdx? (fun t => t = s) with
  | some i => ("str_" ++ toString i, g)
  | none =>
    ("str_" ++ toString g.stringLiterals.length,
     { g with stringLiterals := g.stringLiterals ++ [s] })

/-- The scan of `allocateRegister` over a register list. -/
def allocRegLoop : List Int → CodeGenerator → Option (Int × CodeGenerator)
  | [], _ => none
  | i :: rest, g =>
    if mapGetB g.usedRegs i then allocRegLoop rest g
    else some (i, { g with usedRegs := mapSetB g.usedRegs i true })

/-- Mirrors `allocateRegister`: lowest free of $t0-$t9, marked used;
`none` models the Go `panic("No available registers")`. -/
def allocateRegister (g : CodeGenerator) : Option (Int × CodeGenerator) :=
  allocRegLoop ((List.range 10).map Int.ofNat) g

/-- Mirrors `freeRegister`. -/
def freeRegister (g : CodeGenerator) (reg : Int) : CodeGenerator :=
  if 0 ≤ reg ∧ reg < 10 then { g with usedRegs := mapSetB g.usedRegs reg false }
  else g

/-- The inline define-if-missing of identifier operands in
`collectSymbols`' BinaryExpression case. -/
def defineIfIdentMissing (g : CodeGenerator) (e : ast.Expression) : CodeGenerator :=
  match e with
  | .identifier _ v =>
    if (symbol.Lookup g.symbolTable v).isSome then g
    else { g with symbolTable := (symbol.Define g.symbolTable v symbol.IntegerType).2 }
  | _ => g

mutual

/-- Mirrors `collectSymbols` (pass 1).  There is no case for
FunctionDefinition, ReturnStatement, IntegerLiteral or FunctionCall in
the source switch; those fall through unchanged. -/
def collectSymbols : Nat → CodeGenerator → ast.Node → Option CodeGenerator
  | 0, _, _ => none
  | fuel + 1, g, node =>
    match node with
    | .program p => collectSymbolsList fuel g p.statements
    | .statement (.assignment _ name value) =>
      let g :=
        if (symbol.Lookup g.symbolTable name).isSome then g
        else
          match value with
          | .stringLiteral _ _ =>
            { g with symbolTable := (symbol.Define g.symbolTable name symbol.StringType).2 }
          | _ =>
            { g with symbolTable := (symbol.Define g.symbolTable name symbol.IntegerType).2 }
      collectSymbols fuel g (.expression value)
    | .expression (.binary left _ right) =>
      let g := defineIfIdentMissing g left
      match collectSymbols fuel g (.expression left) with
      | none => none
      | some g =>
        let g := defineIfIdentMissing g right
        collectSymbols fuel g (.expression right)
    | .expression (.stringLiteral _ v) => some (addStringLiteral g v).2
    | .statement (.ifStatement _ cond consequence alternative) =>
      match collectSymbols fuel g (.expression cond) with
      | none => none
      | some g =>
        match
          (match cond with
           | .binary l _ r =>
             match collectSymbols fuel g (.expression l) with
             | none => none
             | some g => collectSymbols fuel g (.expression r)
           | _ => some g) with
        | none => none
        | some g =>
          match collectSymbolsList fuel g consequence with
          | none => none
          | some g =>
            match alternative with
            | some alt => collectSymbolsList fuel g alt
            | none => some g
    | .statement (.whileStatement _ cond body) =>
      match collectSymbols fuel g (.expression cond) with
      | none => none
      | some g =>
        match
          (match cond with
           | .binary l _ r =>
             match collectSymbols fuel g (.expression l) with
             | none => none
             | some g => collectSymbols fuel g (.expression r)
           | _ => some g) with
        | none => none
        | some g => collectSymbolsList fuel g body
    | .expression (.identifier _ v) =>
      if (symbol.Lookup g.symbolTable v).isSome then some g
      else some { g with symbolTable := (symbol.Define g.symbolTable v symbol.IntegerType).2 }
    | .statement (.printStatement _ v) => collectSymbols fuel g (.expression v)
    | .statement (.expressionStatement e) => collectSymbols fuel g (.expression e)
    | _ => some g

/-- The statement loops of `collectSymbols`. -/
def collectSymbolsList : Nat → CodeGenerator → List ast.Statement →
    Option CodeGenerator
  | 0, _, _ => none
  | _ + 1, g, [] => some g
  | fuel + 1, g, s :: rest =>
    match collectSymbols fuel g (.statement s) with
    | none => none
    | some g => collectSymbolsList fuel g rest

end

/-- The `fmt.Sscanf(s, "%d", ...)` success test in `generateExpression`:
leading spaces, an optional sign, then at least one digit. -/
def goScanInt (s : String) : Bool :=
  let cs := s.toList.dropWhile (fun c => c = ' ')
  let cs :=
    match cs with
    | '-' :: rest => rest
    | '+' :: rest => rest
    | _ => cs
  match cs with
  | c :: _ => c.isDigit
  | [] => false

/-- Mirrors `generatePrintStatement`: a string literal prints via
syscall 4 with `la $a0, <literal text>` and no trailing newline; an
identifier found in the symbol table dispatches on its recorded type
(syscall 4 for strings, 1 for integers) and then prints a newline via
syscall 11; every other operand emits nothing. -/
def generatePrintStatement (g : CodeGenerator) (value : ast.Expression) :
    CodeGenerator :=
  match value with
  | .stringLiteral _ v =>
    outs g ["    li $v0, 4\n", "    la $a0, " ++ v ++ "\n", "    syscall\n"]
  | .identifier _ v =>
    match symbol.Lookup g.symbolTable v with
    | none => g
    | some sym =>
      let g :=
        if sym.symType = symbol.StringType then
          outs g ["    li $v0, 4\n", "    lw $a0, " ++ v ++ "\n"]
        else
          outs g ["    li $v0, 1\n", "    lw $a0, " ++ v ++ "\n"]
      outs g ["    syscall\n", "    li $v0, 11\n", "    li $a0, 10\n",
              "    syscall\n"]
  | _ => g

/-- The operator switch of `generateExpression`'s BinaryExpression case
(no default: unknown operators emit nothing). -/
def binaryOpLine (g : CodeGenerator) (op : String) (res l r : Int) :
    CodeGenerator :=
  if op = "+" then
    out g ("    add $t" ++ toString res ++ ", $t" ++ toString l ++ ", $t" ++ toString r ++ "\n")
  else if op = "-" then
    out g ("    sub $t" ++ toString res ++ ", $t" ++ toString l ++ ", $t" ++ toString r ++ "\n")
  else if op = "*" then
    out g ("    mul $t" ++ toString res ++ ", $t" ++ toString l ++ ", $t" ++ toString r ++ "\n")
  else if op = "<" then
    out g ("    slt $t" ++ toString res ++ ", $t" ++ toString l ++ ", $t" ++ toString r ++ "\n")
  else if op = ">" then
    out g ("    slt $t" ++ toString res ++ ", $t" ++ toString r ++ ", $t" ++ toString l ++ "\n")
  else g

/-- The save-used-registers prologue of `generateFunctionCall`. -/
def saveUsedRegs (g : CodeGenerator) : List Int × CodeGenerator :=
  ((List.range 10).map Int.ofNat).foldl
    (fun acc reg =>
      if mapGetB acc.2.usedRegs reg then
        (acc.1 ++ [reg],
         outs acc.2 ["    sw $t" ++ toString reg ++ ", 0($sp)\n",
                     "    addiu $sp, $sp, -4\n"])
      else acc)
    ([], g)

/-- The restore-in-reverse epilogue of `generateFunctionCall`. -/
def restoreRegs (g : CodeGenerator) (saved : List Int) : CodeGenerator :=
  saved.reverse.foldl
    (fun g reg =>
      outs g ["    addiu $sp, $sp, 4\n",
              "    lw $t" ++ toString reg ++ ", 0($sp)\n"])
    g

mutual

/-- Mirrors `generateNode` (pass 2).  The source switch has no case for
FunctionDefinition, ReturnStatement or ExpressionStatement: those hit
the default branch and emit nothing. -/
def generateNode : Nat → CodeGenerator → ast.Node → Option CodeGenerator
  | 0, _, _ => none
  | fuel + 1, g, node =>
    match node with
    | .program p => generateNodeList fuel g p.statements
    | .statement (.assignment _ name value) => generateAssignment fuel g name value
    | .statement (.ifStatement _ cond consequence alternative) =>
      generateIfStatement fuel g cond consequence alternative
    | .statement (.whileStatement _ cond body) =>
      generateWhileStatement fuel g cond body
    | .statement (.printStatement _ v) => some (generatePrintStatement g v)
    | .expression (.functionCall tok fn args) =>
      match generateFunctionCall fuel g tok fn args with
      | none => none
      | some (_, g) => some g
    | _ => some g

/-- The statement loops of `generateNode`'s Program case. -/
def generateNodeList : Nat → CodeGenerator → List ast.Statement →
    Option CodeGenerator
  | 0, _, _ => none
  | _ + 1, g, [] => some g
  | fuel + 1, g, s :: rest =>
    match generateNode fuel g (.statement s) with
    | none => none
    | some g => generateNodeList fuel g rest

/-- Mirrors `generateAssignment`. -/
def generateAssignment : Nat → CodeGenerator → String → ast.Expression →
    Option CodeGenerator
  | 0, _, _, _ => none
  | fuel + 1, g, name, value =>
    match value with
    | .functionCall tok fn args =>
      match generateFunctionCall fuel g tok fn args with
      | none => none
      | some (resultReg, g) =>
        if resultReg ≠ -1 then
          let (sym, st) := symbol.Define g.symbolTable name symbol.IntegerType
          let g := { g with symbolTable := st }
          let g := out g ("    sw $v0, " ++ sym.name ++ "\n")
          some (freeRegister g resultReg)
        else some g
    | _ =>
      match generateExpression fuel g value with
      | none => none
      | some (resultReg, g) =>
        if resultReg = -1 then some g
        else
          let (sym, g) :=
            match symbol.Lookup g.symbolTable name with
            | some sym => (sym, g)
            | none =>
              let (sym, st) := symbol.Define g.symbolTable name symbol.IntegerType
              (sym, { g with symbolTable := st })
          let g := out g ("    sw $t" ++ toString resultReg ++ ", " ++ sym.name ++ "\n")
          some (freeRegister g resultReg)

/-- Mirrors `generateFunctionCall`. -/
def generateFunctionCall : Nat → CodeGenerator → Token → String →
    List ast.Expression → Option (Int × CodeGenerator)
  | 0, _, _, _, _ => none
  | fuel + 1, g, _, fn, args =>
    let (savedRegs, g) := saveUsedRegs g
    match generateCallArgsGen fuel g 0 args with
    | none => none
    | some g =>
      let g := out g ("    jal " ++ fn ++ "\n")
      let g := restoreRegs g savedRegs
      match allocateRegister g with
      | none => none
      | some (resultReg, g) =>
        some (resultReg, out g ("    move $t" ++ toString resultReg ++ ", $v0\n"))

/-- The argument loop of `generateFunctionCall` (break after 4 args). -/
def generateCallArgsGen : Nat → CodeGenerator → Nat → List ast.Expression →
    Option CodeGenerator
  | 0, _, _, _ => none
  | _ + 1, g, _, [] => some g
  | fuel + 1, g, i, arg :: rest =>
    if i ≥ 4 then some g
    else
      match generateExpression fuel g arg with
      | none => none
      | some (argReg, g) =>
        let g :=
          if argReg ≠ -1 then
            freeRegister
              (out g ("    move $a" ++ toString i ++ ", $t" ++ toString argReg ++ "\n"))
              argReg
          else g
        generateCallArgsGen fuel g (i + 1) rest

/-- Mirrors `generateExpression`: returns the register holding the
value, or -1 for the failure paths of the source. -/
def generateExpression : Nat → CodeGenerator → ast.Expression →
    Option (Int × CodeGenerator)
  | 0, _, _ => none
  | fuel + 1, g, expr =>
    match expr with
    | .integerLiteral _ v =>
      match allocateRegister g with
      | none => none
      | some (reg, g) =>
        some (reg, out g ("    li $t" ++ toString reg ++ ", " ++ v ++ "\n"))
    | .stringLiteral _ v =>
      match allocateRegister g with
      | none => none
      | some (reg, g) =>
        let (strLabel, g) := addStringLiteral g v
        some (reg, out g ("    la $t" ++ toString reg ++ ", " ++ strLabel ++ "\n"))
    | .identifier _ v =>
      match allocateRegister g with
      | none => none
      | some (reg, g) =>
        let identRegular := fun (g : CodeGenerator) =>
          match symbol.Lookup g.symbolTable v with
          | none =>
            if goScanInt v then
              some (reg, out g ("    li $t" ++ toString reg ++ ", " ++ v ++ "\n"))
            else some ((-1 : Int), freeRegister g reg)
          | some sym =>
            some (reg, out g ("    lw $t" ++ toString reg ++ ", " ++ sym.name ++ "\n"))
        if g.currentFunction ≠ "" then
          match g.currentParams.findIdx? (fun p => p = v) with
          | some i =>
            let offset : Int := 16 - (Int.ofNat i * 4)
            some (reg, out g ("    lw $t" ++ toString reg ++ ", " ++ toString offset ++ "($fp)\n"))
          | none => identRegular g
        else identRegular g
    | .binary l op r =>
      match generateExpression fuel g l with
      | none => none
      | some (leftReg, g) =>
        if leftReg = -1 then some ((-1 : Int), g)
        else
          match generateExpression fuel g r with
          | none => none
          | some (rightReg, g) =>
            if rightReg = -1 then some ((-1 : Int), freeRegister g leftReg)
            else
              match allocateRegister g with
              | none => none
              | some (resultReg, g) =>
                let g := binaryOpLine g op resultReg leftReg rightReg
                some (resultReg, freeRegister (freeRegister g leftReg) rightReg)
    | .functionCall tok fn args => generateFunctionCall fuel g tok fn args

/-- Mirrors `generateIfStatement` of codegen.go: only a `>` comparison
emits condition code, and its first operand load is the hard-coded
`lw $tN, x`. -/
def generateIfStatement : Nat → CodeGenerator → ast.Expression →
    List ast.Statement → Option (List ast.Statement) → Option CodeGenerator
  | 0, _, _, _, _ => none
  | fuel + 1, g, cond, consequence, alternative =>
    let ifTrue := "if_true_" ++ toString g.labelCount
    let ifFalse := "if_false_" ++ toString g.labelCount
    let ifEnd := "if_end_" ++ toString g.labelCount
    let g := { g with labelCount := g.labelCount + 1 }
    let condResult : Option CodeGenerator :=
      match cond with
      | .binary l op r =>
        match generateExpression fuel g l with
        | none => none
        | some (leftReg, g) =>
          match generateExpression fuel g r with
          | none => none
          | some (rightReg, g) =>
            let g :=
              if op = ">" then
                outs g ["    lw $t" ++ toString leftReg ++ ", x\n",
                        "    li $t" ++ toString rightReg ++ ", 0\n",
                        "    bgt $t" ++ toString leftReg ++ ", $t" ++ toString rightReg
                          ++ ", " ++ ifTrue ++ "\n"]
              else g
            some (freeRegister (freeRegister g leftReg) rightReg)
      | _ => some g
    match condResult with
    | none => none
    | some g =>
      let g := out g ("    j " ++ ifFalse ++ "\n\n")
      let g := out g (ifTrue ++ ":\n")
      match generateNodeList fuel g consequence with
      | none => none
      | some g =>
        let g := if alternative.isSome then out g ("    j " ++ ifEnd ++ "\n") else g
        let g := out g ("\n" ++ ifFalse ++ ":\n")
        match
          (match alternative with
           | some alt => generateNodeList fuel g alt
           | none => some g) with
        | none => none
        | some g =>
          some (if alternative.isSome then out g ("\n" ++ ifEnd ++ ":\n") else g)

/-- Mirrors `generateWhileStatement`. -/
def generateWhileStatement : Nat → CodeGenerator → ast.Expression →
    List ast.Statement → Option CodeGenerator
  | 0, _, _, _ => none
  | fuel + 1, g, cond, body =>
    let startLabel := "while_start_" ++ toString g.labelCount
    let endLabel := "while_end_" ++ toString g.labelCount
    let g := { g with labelCount := g.labelCount + 1 }
    let g := out g (startLabel ++ ":\n")
    let g :=
      match cond with
      | .binary l _ r =>
        let g :=
          match l with
          | .identifier _ v => out g ("    lw $t0, " ++ v ++ "\n")
          | _ => g
        let g :=
          match r with
          | .integerLiteral _ v => out g ("    li $t1, " ++ v ++ "\n")
          | _ => out g "    li $t1, 10\n"
        out g ("    bge $t0, $t1, " ++ endLabel ++ "\n")
      | _ => g
    match generateNodeList fuel g body with
    | none => none
    | some g =>
      some (out (out g ("    j " ++ startLabel ++ "\n")) (endLabel ++ ":\n"))

end

/-- Mirrors `Generate`: installs a fresh parentless symbol table,
resets the label counter and output, collects symbols, then emits the
data section (`for name := range symbols` ranges over a SLICE, so
`name` is the index 0,1,2,...), the text section and the exit call. -/
def Generate (fuel : Nat) (g : CodeGenerator) (node : ast.Node) :
    Option (String × CodeGenerator) :=
  let g := { g with symbolTable := symbol.NewSymbolTable none,
                    labelCount := 1, output := [] }
  match collectSymbols fuel g node with
  | none => none
  | some g =>
    let g := out g ".data\n"
    let g := out g "newline: .asciiz \"\\n\"\n"
    let symbols := symbol.GetSymbols g.symbolTable
    let g := (List.range symbols.length).foldl
      (fun g i => out g ("    " ++ toString i ++ ": .word 0\n")) g
    let g := out g "\n.text\n"
    let g := out g "main:\n"
    match generateNode fuel g node with
    | none => none
    | some g =>
      let g := out g "\n    li $v0, 10\n    syscall\n"
      some (String.join g.output, g)

/-- The operator switch of control.go's `generateCondition`: the three
instruction lines emitted for each comparison operator (`none` for the
unsupported-operator default). -/
def condCore (op : String) (resultReg leftReg rightReg : Int)
    (trueLabel falseLabel : String) : Option (List String) :=
  if op = ">" then
    some ["    slt $t" ++ toString resultReg ++ ", $t" ++ toString rightReg
            ++ ", $t" ++ toString leftReg ++ "\n",
          "    beq $t" ++ toString resultReg ++ ", $zero, " ++ falseLabel ++ "\n",
          "    j " ++ trueLabel ++ "\n"]
  else if op = "<" then
    some ["    slt $t" ++ toString resultReg ++ ", $t" ++ toString leftReg
            ++ ", $t" ++ toString rightReg ++ "\n",
          "    beq $t" ++ toString resultReg ++ ", $zero, " ++ falseLabel ++ "\n",
          "    j " ++ trueLabel ++ "\n"]
  else if op = ">=" then
    some ["    slt $t" ++ toString resultReg ++ ", $t" ++ toString leftReg
            ++ ", $t" ++ toString rightReg ++ "\n",
          "    bne $t" ++ toString resultReg ++ ", $zero, " ++ falseLabel ++ "\n",
          "    j " ++ trueLabel ++ "\n"]
  else if op = "<=" then
    some ["    slt $t" ++ toString resultReg ++ ", $t" ++ toString rightReg
            ++ ", $t" ++ toString leftReg ++ "\n",
          "    bne $t" ++ toString resultReg ++ ", $zero, " ++ falseLabel ++ "\n",
          "    j " ++ trueLabel ++ "\n"]
  else if op = "==" then
    some ["    sub $t" ++ toString resultReg ++ ", $t" ++ toString leftReg
            ++ ", $t" ++ toString rightReg ++ "\n",
          "    bne $t" ++ toString resultReg ++ ", $zero, " ++ falseLabel ++ "\n",
          "    j " ++ trueLabel ++ "\n"]
  else if op = "!=" then
    some ["    sub $t" ++ toString resultReg ++ ", $t" ++ toString leftReg
            ++ ", $t" ++ toString rightReg ++ "\n",
          "    beq $t" ++ toString resultReg ++ ", $zero, " ++ falseLabel ++ "\n",
          "    j " ++ trueLabel ++ "\n"]
  else none

/-- Mirrors control.go's `generateCondition`: evaluate both operands,
allocate a result register, then branch per `condCore`; non-binary
conditions and unknown operators produce Go errors. -/
def generateCondition (fuel : Nat) (g : CodeGenerator)
    (condition : ast.Expression) (trueLabel falseLabel : String)
    (scope : List Int) :
    Option (Except String Unit × CodeGenerator × List Int) :=
  match condition with
  | .binary l op r =>
    match generateExpression fuel g l with
    | none => none
    | some (leftReg, g) =>
      match generateExpression fuel g r with
      | none => none
      | some (rightReg, g) =>
        let scope := scope ++ [leftReg, rightReg]
        match allocateRegister g with
        | none => none
        | some (resultReg, g) =>
          let scope := scope ++ [resultReg]
          match condCore op resultReg leftReg rightReg trueLabel falseLabel with
          | some lines => some (.ok (), outs g lines, scope)
          | none =>
            some (.error ("unsupported comparison operator: " ++ op), g, scope)
  | _ => some (.error "unsupported condition type", g, scope)

end codegen

/-! ### Claims C1, C2, C3, C4, C6, C9, C10: code generator behaviour -/

namespace codegen

open token

/-- A placeholder token (tokens carried by AST nodes do not influence
code generation). -/
def dtok : Token := { ttype := "", literal := "", line := 0, column := 0 }

/-- The global symbol table `NewSymbolTable(nil)`. -/
def st0 : symbol.SymbolTable := symbol.NewSymbolTable none

/-- The one-statement program `x = 5`. -/
def progC1 : ast.Node :=
  .program ⟨[.assignment dtok "x" (.integerLiteral dtok "5")]⟩

/-- C1: the .data section does not contain a `x: .word 0` line for the
global variable `x` of the program `x = 5`.  `Generate` ranges with one
variable over the SLICE returned by `GetSymbols`, so the loop variable
is the slice index, and the emitted lines are `    0: .word 0` and
`    1: .word 0` (indices over the two collected symbols, the builtin
`print` and `x`), not variable names.  The claimed per-name lines are
absent. -/
theorem Generate_data_section_emits_indices :
    ∃ chunks,
      (Generate 100 (New st0) progC1).map (fun r => r.2.output) = some chunks ∧
      chunks = [".data\n", "newline: .asciiz \"\\n\"\n",
                "    0: .word 0\n", "    1: .word 0\n",
                "\n.text\n", "main:\n",
                "    li $t0, 5\n", "    sw $t0, x\n",
                "\n    li $v0, 10\n    syscall\n"] ∧
      ¬ "x: .word".toList <:+: (String.join chunks).toList :=
  ⟨_, rfl, rfl, by decide⟩

/-- The program `def add(a, b):` / `    return a + b`. -/
def progC2 : ast.Node :=
  .program ⟨[.functionDefinition dtok "add" ["a", "b"]
    [.returnStatement dtok (.binary (.identifier dtok "a") "+" (.identifier dtok "b"))]]⟩

/-- C2: a program consisting of a user-defined function produces no
`add:` label, no prologue and no body code: `generateNode` has no case
for FunctionDefinition (it falls into the logging default), so
`generateFunction` is never reached and the .text section contains only
the `main:` block and the exit call. -/
theorem Generate_emits_no_function_blocks :
    ∃ chunks,
      (Generate 100 (New st0) progC2).map (fun r => r.2.output) = some chunks ∧
      chunks = [".data\n", "newline: .asciiz \"\\n\"\n",
                "    0: .word 0\n",
                "\n.text\n", "main:\n",
                "\n    li $v0, 10\n    syscall\n"] ∧
      ¬ "add:".toList <:+: (String.join chunks).toList ∧
      ¬ "jr $ra".toList <:+: (String.join chunks).toList :=
  ⟨_, rfl, rfl, by decide, by decide⟩

/-- The program `x = "hi"` / `print(x)` / `print(x)`. -/
def progC3 : ast.Node :=
  .program ⟨[.assignment dtok "x" (.stringLiteral dtok "hi"),
             .printStatement dtok (.identifier dtok "x"),
             .printStatement dtok (.identifier dtok "x")]⟩

/-- C3: for `x = "hi"` followed by two `print(x)`, the emitted assembly
contains NO `.asciiz` entry for "hi" at all (not exactly one):
`Generate` never calls `generateDataSection`, which is the only place
the deduplicated `stringLiterals` pool is written out, while
`generateExpression` still emits `la $t0, str_0` referencing the
never-defined label. -/
theorem Generate_emits_no_asciiz_pool :
    ∃ chunks,
      (Generate 100 (New st0) progC3).map (fun r => r.2.output) = some chunks ∧
      chunks = [".data\n", "newline: .asciiz \"\\n\"\n",
                "    0: .word 0\n", "    1: .word 0\n",
                "\n.text\n", "main:\n",
                "    la $t0, str_0\n", "    sw $t0, x\n",
                "    li $v0, 4\n", "    lw $a0, x\n", "    syscall\n",
                "    li $v0, 11\n", "    li $a0, 10\n", "    syscall\n",
                "    li $v0, 4\n", "    lw $a0, x\n", "    syscall\n",
                "    li $v0, 11\n", "    li $a0, 10\n", "    syscall\n",
                "\n    li $v0, 10\n    syscall\n"] ∧
      "    la $t0, str_0\n" ∈ chunks ∧
      ¬ ".asciiz \"hi\"".toList <:+: (String.join chunks).toList :=
  ⟨_, rfl, rfl, by decide, by decide⟩

/-- A generator with every temporary register $t0-$t9 marked in use. -/
def c4AllUsed : CodeGenerator :=
  { New st0 with usedRegs := (List.range 10).map (fun i => (Int.ofNat i, true)) }

/-- C4: the counterexample.  With all ten registers in use,
`allocateRegister` does NOT return (reuse) the highest-numbered
register: it aborts the compilation (`panic("No available registers")`,
modelled by `none`). -/
theorem allocateRegister_exhaustion_counterexample :
    allocateRegister c4AllUsed = none := rfl

/-- C4, amended: register allocation does scan $t0..$t9 for the
lowest-numbered free register and marks it used, but when all ten are in
use it panics instead of degrading to the highest register. -/
theorem allocateRegister_lowest_free (g : CodeGenerator) (i : Int)
    (h0 : 0 ≤ i) (hi : i < 10)
    (hfree : mapGetB g.usedRegs i = false)
    (hbelow : ∀ j : Int, 0 ≤ j → j < i → mapGetB g.usedRegs j = true) :
    allocateRegister g =
      some (i, { g with usedRegs := mapSetB g.usedRegs i true }) := by
  have hR : (List.range 10).map Int.ofNat = [0, 1, 2, 3, 4, 5, 6, 7, 8, 9] := by decide
  unfold allocateRegister
  rw [hR]
  interval_cases i <;> simp [allocRegLoop, hfree, hbelow]

/-- A generator with exactly $t0 and $t1 in use. -/
def c4TwoUsed : CodeGenerator :=
  { New st0 with usedRegs := [(0, true), (1, true)] }

/-- C4: witness for the amended theorem - with $t0 and $t1 busy, the
allocator hands out $t2 and marks it used. -/
theorem allocateRegister_lowest_free_witness :
    allocateRegister c4TwoUsed =
      some (2, { c4TwoUsed with usedRegs := mapSetB c4TwoUsed.usedRegs 2 true }) :=
  allocateRegister_lowest_free c4TwoUsed 2 (by decide) (by decide) rfl
    (fun j h0 hj => by interval_cases j <;> rfl)

/-- The branch line of `generateCondition` with the given opcode. -/
def mkBranch (opcode : String) (res : Int) (falseLabel : String) : String :=
  "    " ++ opcode ++ " $t" ++ toString res ++ ", $zero, " ++ falseLabel ++ "\n"

/-- C6: the operand-swap rule of comparison lowering.  `>` emits
exactly what `<` emits with the operand registers swapped, `<=`
exactly what `>=` emits with the operands swapped; and the
swap-plus-negation link holds: `>=` emits the same set-less-than and
jump lines as `<` with the branch flipped from `beq` to `bne`, and
`<=` likewise negates `>`. -/
theorem generateCondition_operand_swap :
    (∀ res a b tl fl, condCore ">" res a b tl fl = condCore "<" res b a tl fl) ∧
    (∀ res a b tl fl, condCore "<=" res a b tl fl = condCore ">=" res b a tl fl) ∧
    (∀ res a b tl fl, ∃ sltLine jLine,
      condCore "<" res a b tl fl = some [sltLine, mkBranch "beq" res fl, jLine] ∧
      condCore ">=" res a b tl fl = some [sltLine, mkBranch "bne" res fl, jLine]) ∧
    (∀ res a b tl fl, ∃ sltLine jLine,
      condCore ">" res a b tl fl = some [sltLine, mkBranch "beq" res fl, jLine] ∧
      condCore "<=" res a b tl fl = some [sltLine, mkBranch "bne" res fl, jLine]) :=
  ⟨fun _ _ _ _ _ => rfl, fun _ _ _ _ _ => rfl,
   fun _ _ _ _ _ => ⟨_, _, rfl, rfl⟩, fun _ _ _ _ _ => ⟨_, _, rfl, rfl⟩⟩

/-- C9: the counterexample.  Printing the string literal "hi" emits
syscall 4 but loads `$a0` with the raw literal text (`la $a0, hi`), not
a string address, and emits NO trailing-newline syscall. -/
theorem generatePrint_string_literal_counterexample :
    (generatePrintStatement (New st0) (.stringLiteral dtok "hi")).output =
      ["    li $v0, 4\n", "    la $a0, hi\n", "    syscall\n"] ∧
    ∀ s ∈ (generatePrintStatement (New st0) (.stringLiteral dtok "hi")).output,
      ¬ s = "    li $v0, 11\n" :=
  ⟨rfl, by decide⟩

/-- C9, amended: the claimed dispatch-and-newline behaviour holds only
for identifier operands found in the symbol table: string-typed
identifiers use syscall 4, integer-typed ones syscall 1, each followed
by the newline syscall 11; a string-literal operand gets no newline,
and any other operand prints nothing. -/
theorem generatePrint_identifier_dispatch (g : CodeGenerator) (tok : Token)
    (v : String) (sym : symbol.Symbol)
    (h : symbol.Lookup g.symbolTable v = some sym) :
    (generatePrintStatement g (.identifier tok v)).output =
      g.output ++
        [if sym.symType = symbol.StringType then "    li $v0, 4\n" else "    li $v0, 1\n",
         "    lw $a0, " ++ v ++ "\n", "    syscall\n", "    li $v0, 11\n",
         "    li $a0, 10\n", "    syscall\n"] := by
  unfold generatePrintStatement
  dsimp only
  rw [h]
  by_cases ht : sym.symType = symbol.StringType <;>
    simp [ht, outs, out, List.append_assoc]

/-- The symbol recorded for `x` by `Define x INTEGER` on the global
table. -/
def c9sym : symbol.Symbol :=
  { name := "x", symType := symbol.IntegerType, address := 0, isGlobal := true,
    funcParams := [], isTemp := false, isPrint := false, scope := "" }

/-- A generator whose table holds the integer variable `x`. -/
def c9gen : CodeGenerator :=
  { New st0 with symbolTable := (symbol.Define st0 "x" symbol.IntegerType).2 }

/-- C9: witness for the amended theorem - printing the integer
identifier `x` uses syscall 1 and then the newline syscall. -/
theorem generatePrint_identifier_dispatch_witness :
    symbol.Lookup c9gen.symbolTable "x" = some c9sym ∧
    (generatePrintStatement c9gen (.identifier dtok "x")).output =
      c9gen.output ++
        ["    li $v0, 1\n", "    lw $a0, x\n", "    syscall\n",
         "    li $v0, 11\n", "    li $a0, 10\n", "    syscall\n"] :=
  ⟨rfl, by rw [generatePrint_identifier_dispatch c9gen dtok "x" c9sym rfl]; rfl⟩

/-- C10: `Generate` overwrites the generator's symbol table with
`NewSymbolTable(nil)` before doing anything else, so the table passed to
the constructor `New` never influences the produced assembly. -/
theorem Generate_independent_of_constructor_table :
    ∀ (fuel : Nat) (st1 st2 : symbol.SymbolTable) (node : ast.Node),
      Generate fuel (New st1) node = Generate fuel (New st2) node :=
  fun _ _ _ _ => rfl

end codegen
